/-
Verification of the Semantic Score engine of yn-organicperf-suite.

The Lean definitions below are shallow embeddings of the Python code in
modules/semantic_score/text_analysis.py and modules/semantic_score/engine.py.
Python dictionaries (insertion ordered, string keyed) are modelled as
association lists `List (String × α)` with first-match lookup; machine floats
are modelled as rationals; the external embedding model, BERT model, content
fetcher and SERP client are modelled as oracle parameters, since they are
collaborators outside the verified core. Python's stable `sorted` is modelled
by `List.insertionSort`, which is stable and kernel-computable.
-/
import Mathlib

namespace OrganicPerf

/-! ### Levenshtein distance

The Python code calls `Levenshtein.distance`, the unit-cost edit distance on
strings; `lev` is that distance on the underlying character lists, written
with an explicit fuel argument only so that the classic three-way recursion
is structural (the fuel is always sufficient and never changes the value). -/

/-- Fuel-indexed unit-cost Levenshtein recursion. -/
def levFuel : Nat → List Char → List Char → Nat
  | 0, _, _ => 0
  | _ + 1, [], ys => ys.length
  | _ + 1, x :: xs, [] => (x :: xs).length
  | f + 1, x :: xs, y :: ys =>
      if x = y then levFuel f xs ys
      else 1 + min (levFuel f xs (y :: ys)) (min (levFuel f (x :: xs) ys) (levFuel f xs ys))

/-- Unit-cost Levenshtein edit distance between two character lists, the
function `levenshtein_distance` used by `TextAnalyzer._dedup_levenshtein`. -/
def lev (xs ys : List Char) : Nat := levFuel (xs.length + ys.length + 1) xs ys

/-- The fuel does not matter as long as it exceeds the total length. -/
theorem levFuel_stable : ∀ (f g : Nat) (xs ys : List Char),
    xs.length + ys.length < f → xs.length + ys.length < g →
    levFuel f xs ys = levFuel g xs ys
  | 0, _, _, _, hf, _ => absurd hf (Nat.not_lt_zero _)
  | _ + 1, 0, _, _, _, hg => absurd hg (Nat.not_lt_zero _)
  | _ + 1, _ + 1, [], _, _, _ => rfl
  | _ + 1, _ + 1, _ :: _, [], _, _ => rfl
  | f + 1, g + 1, x :: xs, y :: ys, hf, hg => by
    simp only [List.length_cons] at hf hg
    show (if x = y then levFuel f xs ys
        else 1 + min (levFuel f xs (y :: ys)) (min (levFuel f (x :: xs) ys) (levFuel f xs ys)))
      = (if x = y then levFuel g xs ys
        else 1 + min (levFuel g xs (y :: ys)) (min (levFuel g (x :: xs) ys) (levFuel g xs ys)))
    rw [levFuel_stable f g xs (y :: ys) (by simp only [List.length_cons]; omega)
        (by simp only [List.length_cons]; omega),
      levFuel_stable f g (x :: xs) ys (by simp only [List.length_cons]; omega)
        (by simp only [List.length_cons]; omega),
      levFuel_stable f g xs ys (by omega) (by omega)]

theorem lev_nil (ys : List Char) : lev [] ys = ys.length := rfl

theorem lev_cons_nil (x : Char) (xs : List Char) : lev (x :: xs) [] = xs.length + 1 := rfl

theorem lev_cons_cons (x y : Char) (xs ys : List Char) :
    lev (x :: xs) (y :: ys) =
      if x = y then lev xs ys
      else 1 + min (lev xs (y :: ys)) (min (lev (x :: xs) ys) (lev xs ys)) := by
  have e : (x :: xs).length + (y :: ys).length + 1 = (xs.length + ys.length + 2) + 1 := by
    simp only [List.length_cons]
    omega
  calc lev (x :: xs) (y :: ys)
      = levFuel ((xs.length + ys.length + 2) + 1) (x :: xs) (y :: ys) := by
        unfold lev
        rw [e]
    _ = if x = y then levFuel (xs.length + ys.length + 2) xs ys
        else 1 + min (levFuel (xs.length + ys.length + 2) xs (y :: ys))
          (min (levFuel (xs.length + ys.length + 2) (x :: xs) ys)
            (levFuel (xs.length + ys.length + 2) xs ys)) := rfl
    _ = _ := by
        rw [levFuel_stable (xs.length + ys.length + 2) (xs.length + (y :: ys).length + 1)
            xs (y :: ys) (by simp only [List.length_cons]; omega)
            (by simp only [List.length_cons]; omega),
          levFuel_stable (xs.length + ys.length + 2) ((x :: xs).length + ys.length + 1)
            (x :: xs) ys (by simp only [List.length_cons]; omega)
            (by simp only [List.length_cons]; omega),
          levFuel_stable (xs.length + ys.length + 2) (xs.length + ys.length + 1)
            xs ys (by omega) (by omega)]
        rfl

/-- Levenshtein distance is symmetric. -/
theorem lev_symm : ∀ (xs ys : List Char), lev xs ys = lev ys xs
  | [], [] => rfl
  | [], _ :: _ => by
    rw [lev_nil, lev_cons_nil, List.length_cons]
  | _ :: _, [] => by
    rw [lev_nil, lev_cons_nil, List.length_cons]
  | x :: xs, y :: ys => by
    rw [lev_cons_cons, lev_cons_cons]
    rcases eq_or_ne x y with h | h
    · subst h
      rw [if_pos rfl, if_pos rfl, lev_symm xs ys]
    · rw [if_neg h, if_neg (Ne.symm h), lev_symm xs (y :: ys), lev_symm (x :: xs) ys,
        lev_symm xs ys]
      omega
termination_by xs ys => xs.length + ys.length

/-! ### Near-Duplicate Collapser (`TextAnalyzer._dedup_levenshtein`) -/

/-- The removal test in `_dedup_levenshtein`: a later phrase `p2` is absorbed
by an earlier representative `p1` when the maximal length is nonzero and the
normalized edit similarity `1 - dist / maxl` is at least the threshold. -/
def removes (t : ℚ) (p1 p2 : String) : Bool :=
  let maxl : Nat := max p1.length p2.length
  decide (maxl ≠ 0) && decide (t ≤ 1 - (lev p1.data p2.data : ℚ) / (maxl : ℚ))

/-- The removal test is symmetric in the two phrases. -/
theorem removes_symm (t : ℚ) (p1 p2 : String) : removes t p1 p2 = removes t p2 p1 := by
  simp only [removes, lev_symm p1.data p2.data, Nat.max_comm]

/-- The frequency-descending order used by `sorted(..., reverse=True)` on a
phrase table: stable sorting by this relation is exactly Python's stable
descending sort by frequency. -/
def byFreqDesc (a b : String × Nat) : Prop := b.2 ≤ a.2

instance : DecidableRel byFreqDesc := fun a b => inferInstanceAs (Decidable (b.2 ≤ a.2))

instance : IsTotal (String × Nat) byFreqDesc := ⟨fun a b => Nat.le_total b.2 a.2⟩

instance : IsTrans (String × Nat) byFreqDesc := ⟨fun _ _ _ h1 h2 => Nat.le_trans h2 h1⟩

/-- The greedy scan of `_dedup_levenshtein`. In the Python loop a phrase is
added to `removed` exactly when some earlier kept representative absorbs it,
so the scan keeps a phrase iff no previously kept representative passes the
removal test; `kept` accumulates the representatives kept so far. -/
def dedupScan (t : ℚ) (kept : List (String × Nat)) : List (String × Nat) → List (String × Nat)
  | [] => []
  | q :: rest =>
      if kept.any (fun k => removes t k.1 q.1) then dedupScan t kept rest
      else q :: dedupScan t (kept ++ [q]) rest

/-- `TextAnalyzer._dedup_levenshtein`: sort the phrase table by frequency
descending (stable), then greedily keep representatives and drop later
near-duplicates. -/
def dedup_levenshtein (t : ℚ) (tbl : List (String × Nat)) : List (String × Nat) :=
  dedupScan t [] (List.insertionSort byFreqDesc tbl)

/-- The greedy scan only keeps entries of its input, in order. -/
theorem dedupScan_sublist (t : ℚ) :
    ∀ (l kept : List (String × Nat)), List.Sublist (dedupScan t kept l) l
  | [], _ => List.Sublist.slnil
  | q :: rest, kept => by
    rw [dedupScan]
    split
    · exact (dedupScan_sublist t rest kept).cons q
    · exact (dedupScan_sublist t rest (kept ++ [q])).cons₂ q

/-- Every phrase kept by the scan fails the removal test against every
accumulated representative. -/
theorem dedupScan_all_kept (t : ℚ) :
    ∀ (l kept : List (String × Nat)),
      ∀ e ∈ dedupScan t kept l, ∀ k ∈ kept, removes t k.1 e.1 = false
  | [], _ => by simp [dedupScan]
  | q :: rest, kept => by
    rw [dedupScan]
    split
    · exact dedupScan_all_kept t rest kept
    · rename_i hany
      intro e he k hk
      rcases List.mem_cons.mp he with rfl | he2
      · have h1 : ¬ (kept.any (fun k => removes t k.1 e.1) = true) := hany
        rw [List.any_eq_true] at h1
        push_neg at h1
        simpa using h1 k hk
      · exact dedupScan_all_kept t rest (kept ++ [q]) e he2 k (List.mem_append_left _ hk)

/-- Any two entries retained by the greedy scan, in scan order, fail the
removal test. -/
theorem dedupScan_pairwise (t : ℚ) :
    ∀ (l kept : List (String × Nat)),
      (dedupScan t kept l).Pairwise (fun a b => removes t a.1 b.1 = false)
  | [], _ => by simp [dedupScan]
  | q :: rest, kept => by
    rw [dedupScan]
    split
    · exact dedupScan_pairwise t rest kept
    · refine List.Pairwise.cons ?_ (dedupScan_pairwise t rest (kept ++ [q]))
      intro b hb
      exact dedupScan_all_kept t rest (kept ++ [q]) b hb q (List.mem_append_right _ (by simp))

/-- Failing the removal test is a symmetric relation on table entries. -/
theorem removes_false_symmetric (t : ℚ) :
    Symmetric (fun a b : String × Nat => removes t a.1 b.1 = false) := by
  intro a b h
  rw [removes_symm]
  exact h

/-- Two distinct phrases cannot both be empty, so the `maxl == 0` guard never
fires for them; failing the removal test then means similarity below the
threshold. -/
theorem removes_false_lt (t : ℚ) (p1 p2 : String) (hne : p1 ≠ p2)
    (h : removes t p1 p2 = false) :
    1 - (lev p1.data p2.data : ℚ) / ((max p1.length p2.length : Nat) : ℚ) < t := by
  have hmax : max p1.length p2.length ≠ 0 := by
    intro h0
    have h1 : p1.length = 0 := by omega
    have h2 : p2.length = 0 := by omega
    have e1 : p1.data = [] := List.length_eq_zero.mp h1
    have e2 : p2.data = [] := List.length_eq_zero.mp h2
    exact hne (String.ext (e1.trans e2.symm))
  simp only [removes, Bool.and_eq_false_iff, decide_eq_false_iff_not, not_not, not_le] at h
  rcases h with h | h
  · exact absurd h hmax
  · exact h

/-- Claim C2. For every phrase table and dedup threshold, any two distinct
phrases retained by the Near-Duplicate Collapser have normalized edit
similarity `1 - lev(p1,p2) / max(len p1, len p2)` strictly below the
threshold. -/
theorem dedup_levenshtein_pairwise_distinct (t : ℚ) (tbl : List (String × Nat))
    (p1 p2 : String) (c1 c2 : Nat)
    (h1 : (p1, c1) ∈ dedup_levenshtein t tbl)
    (h2 : (p2, c2) ∈ dedup_levenshtein t tbl)
    (hne : p1 ≠ p2) :
    1 - (lev p1.data p2.data : ℚ) / ((max p1.length p2.length : Nat) : ℚ) < t := by
  have hpw := dedupScan_pairwise t (List.insertionSort byFreqDesc tbl) []
  have hpair : removes t p1 p2 = false :=
    (hpw.forall (removes_false_symmetric t)) h1 h2
      (fun hcontra => hne (congrArg Prod.fst hcontra))
  exact removes_false_lt t p1 p2 hne hpair

unseal Rat.mul Rat.inv Rat.add Rat.sub in
/-- Witness for claim C2 at a concrete table: both phrases survive dedup and
their similarity is below the threshold. -/
theorem dedup_levenshtein_pairwise_distinct_witness :
    1 - (lev "seo".data "voyage".data : ℚ)
        / ((max "seo".length "voyage".length : Nat) : ℚ) < (17 : ℚ) / 20 :=
  dedup_levenshtein_pairwise_distinct ((17 : ℚ) / 20)
    [("seo", 3), ("voyage", 2)] "seo" "voyage" 3 2
    (by decide) (by decide) (by decide)

/-- If no entry is absorbed by an earlier entry or by any accumulated
representative, the greedy scan keeps the list unchanged. -/
theorem dedupScan_eq_self (t : ℚ) :
    ∀ (l kept : List (String × Nat)),
      l.Pairwise (fun a b => removes t a.1 b.1 = false) →
      (∀ k ∈ kept, ∀ e ∈ l, removes t k.1 e.1 = false) →
      dedupScan t kept l = l
  | [], _, _, _ => rfl
  | q :: rest, kept, hpw, hkept => by
    rw [dedupScan]
    obtain ⟨hhead, htail⟩ := List.pairwise_cons.mp hpw
    have hany : kept.any (fun k => removes t k.1 q.1) = false := by
      rw [List.any_eq_false]
      intro k hk
      simp [hkept k hk q (List.mem_cons_self q rest)]
    rw [if_neg (by simp [hany])]
    congr 1
    refine dedupScan_eq_self t rest (kept ++ [q]) htail ?_
    intro k hk e he
    rcases List.mem_append.mp hk with hk1 | hk1
    · exact hkept k hk1 e (List.mem_cons_of_mem q he)
    · have : k = q := by simpa using hk1
      subst this
      exact hhead e he

/-- Claim C4. The Near-Duplicate Collapser is idempotent: applied to its own
output with the same threshold it returns that output unchanged. -/
theorem dedup_levenshtein_idempotent (t : ℚ) (tbl : List (String × Nat)) :
    dedup_levenshtein t (dedup_levenshtein t tbl) = dedup_levenshtein t tbl := by
  have hsorted : List.Sorted byFreqDesc (List.insertionSort byFreqDesc tbl) :=
    List.sorted_insertionSort byFreqDesc tbl
  have hsub := dedupScan_sublist t (List.insertionSort byFreqDesc tbl) []
  have hout_sorted : List.Sorted byFreqDesc (dedup_levenshtein t tbl) :=
    List.Pairwise.sublist hsub hsorted
  show dedupScan t []
      (List.insertionSort byFreqDesc (dedup_levenshtein t tbl)) = dedup_levenshtein t tbl
  rw [List.Sorted.insertionSort_eq hout_sorted]
  exact dedupScan_eq_self t _ [] (dedupScan_pairwise t _ []) (by simp)

/-! ### Keyword density (`TextAnalyzer.calculate_keyword_density`)

Python string primitives (`lower`, `split`, `count`, `in`, `strip`, slicing,
`join`) are modelled structurally on the underlying character lists so that
everything evaluates inside the kernel. -/

/-- Python `str.lower()` (character-wise lowercasing). -/
def strLower (s : String) : String := ⟨s.data.map Char.toLower⟩

/-- Python slicing `s[:n]`. -/
def strTake (s : String) (n : Nat) : String := ⟨s.data.take n⟩

/-- Character-list prefix test. -/
def isPref : List Char → List Char → Bool
  | [], _ => true
  | _ :: _, [] => false
  | a :: as, b :: bs => a == b && isPref as bs

/-- Python substring membership `needle in hay` on character lists. -/
def hasSub (needle : List Char) : List Char → Bool
  | [] => needle.isEmpty
  | c :: cs => isPref needle (c :: cs) || hasSub needle cs

/-- Python `hay.count(needle)` for nonempty `needle`: non-overlapping
occurrences scanning left to right; `skip` counts positions still inside the
previous match. -/
def pyCountAux (needle : List Char) : Nat → List Char → Nat
  | _, [] => 0
  | 0, c :: cs =>
      if isPref needle (c :: cs) then 1 + pyCountAux needle (needle.length - 1) cs
      else pyCountAux needle 0 cs
  | s + 1, _ :: cs => pyCountAux needle s cs

/-- Python `hay.count(needle)` (for the empty needle Python returns
`len(hay) + 1`). -/
def pyCount (hay needle : String) : Nat :=
  if needle.data.isEmpty then hay.data.length + 1
  else pyCountAux needle.data 0 hay.data

/-- Number of chunks Python `str.split()` produces: maximal runs of
non-whitespace characters; `inWord` tracks whether the previous character was
part of a word. -/
def splitCountAux : Bool → List Char → Nat
  | _, [] => 0
  | inWord, c :: cs =>
      if c.isWhitespace then splitCountAux false cs
      else (if inWord then 0 else 1) + splitCountAux true cs

/-- Python `len(s.split())`. -/
def pyWordCount (s : String) : Nat := splitCountAux false s.data

/-- `TextAnalyzer.calculate_keyword_density`: occurrences of the lowercased
keyword substring in the lowercased text, divided by the whitespace-split
word count, times 100; 0 when the text has no words. -/
def calculate_keyword_density (text word : String) : ℚ :=
  let total := pyWordCount (strLower text)
  if total = 0 then 0
  else ((pyCount (strLower text) (strLower word) : ℚ) / (total : ℚ)) * 100

/-- A text with no occurrence of the needle counts zero occurrences. -/
theorem pyCountAux_eq_zero (needle : List Char) :
    ∀ (hay : List Char), hasSub needle hay = false → pyCountAux needle 0 hay = 0
  | [], _ => rfl
  | c :: cs, h => by
    rw [hasSub, Bool.or_eq_false_iff] at h
    rw [pyCountAux, if_neg (by simp [h.1]), pyCountAux_eq_zero needle cs h.2]

/-- The empty needle occurs in every haystack. -/
theorem hasSub_nil (hay : List Char) : hasSub [] hay = true := by
  cases hay with
  | nil => rfl
  | cons c cs => rfl

/-- Claim C9. Keyword density is 0 when the (lowercased) keyword never occurs
in the (lowercased) text, and for a fixed word count it is monotone in the
number of occurrences (repeated insertions of the keyword into a fixed-length
text only increase the count, hence the density). -/
theorem keyword_density_spec :
    (∀ text word : String,
      hasSub (strLower word).data (strLower text).data = false →
      calculate_keyword_density text word = 0)
    ∧ (∀ t1 t2 word : String,
      pyWordCount (strLower t1) = pyWordCount (strLower t2) →
      pyCount (strLower t1) (strLower word) ≤ pyCount (strLower t2) (strLower word) →
      calculate_keyword_density t1 word ≤ calculate_keyword_density t2 word) := by
  constructor
  · intro text word h
    unfold calculate_keyword_density
    rcases eq_or_ne (pyWordCount (strLower text)) 0 with h0 | h0
    · rw [if_pos h0]
    · rw [if_neg h0]
      have hne : (strLower word).data.isEmpty = false := by
        rcases hw : (strLower word).data with _ | ⟨c, cs⟩
        · rw [hw] at h
          rw [hasSub_nil] at h
          exact absurd h (by simp)
        · rfl
      have hcount : pyCount (strLower text) (strLower word) = 0 := by
        unfold pyCount
        rw [if_neg (by simp [hne])]
        exact pyCountAux_eq_zero _ _ h
      rw [hcount]
      norm_num
  · intro t1 t2 word hlen hcount
    unfold calculate_keyword_density
    rcases eq_or_ne (pyWordCount (strLower t1)) 0 with h0 | h0
    · rw [if_pos h0, if_pos (hlen ▸ h0)]
    · rw [if_neg h0, if_neg (hlen ▸ h0), ← hlen]
      have hT : (0 : ℚ) < (pyWordCount (strLower t1) : ℚ) := by
        exact_mod_cast Nat.pos_of_ne_zero h0
      refine mul_le_mul_of_nonneg_right ?_ (by norm_num)
      exact (div_le_div_iff_of_pos_right hT).mpr (by exact_mod_cast hcount)

/-- Witness for claim C9: a text without the keyword has density 0, and a
text with more occurrences (same word count) has at least the density of one
with fewer. -/
theorem keyword_density_spec_witness :
    calculate_keyword_density "bonjour le monde" "seo" = 0
    ∧ calculate_keyword_density "seo alpha beta" "seo"
        ≤ calculate_keyword_density "seo seo gamma" "seo" :=
  ⟨keyword_density_spec.1 "bonjour le monde" "seo" (by decide),
   keyword_density_spec.2 "seo alpha beta" "seo seo gamma" "seo" (by decide) (by decide)⟩

/-! ### SEO-Weighted Scorer (`TextAnalyzer.calculate_seo_weighted_score`) -/

/-- Python `s.strip()` on the character list. -/
def trimChars (l : List Char) : List Char :=
  ((l.dropWhile Char.isWhitespace).reverse.dropWhile Char.isWhitespace).reverse

/-- Python truthiness of `text and text.strip()` in the `_score` helper. -/
def presentText (text : String) : Bool :=
  !(text.data.isEmpty) && !((trimChars text.data).isEmpty)

/-- Python `" ".join(parts)`. -/
def joinSpace : List String → String
  | [] => ""
  | [s] => s
  | s :: rest => s ++ " " ++ joinSpace rest

/-- Field weights of `calculate_seo_weighted_score`. -/
def weights : String → ℚ
  | "title" => 25 / 100
  | "h1" => 20 / 100
  | "meta_description" => 15 / 100
  | "headings" => 15 / 100
  | "body" => 25 / 100
  | _ => 0

/-- The optional page fields passed to `calculate_seo_weighted_score`. -/
structure SeoFields where
  title : Option String := none
  h1 : Option String := none
  meta_description : Option String := none
  h2_tags : List String := []
  h3_tags : List String := []
  body_content : Option String := none

/-- The `_score` helper of `calculate_seo_weighted_score`: a present,
non-blank field contributes `max 0 (cosine)` under its key; an embedding
failure (`fieldSim` returning `none`) is swallowed and the field skipped. -/
def fieldEntry (fieldSim : String → Option ℚ) (text : Option String) (key : String) :
    Option (String × ℚ) :=
  match text with
  | none => none
  | some s =>
      if presentText s then
        match fieldSim (strTake s 5000) with
        | none => none
        | some c => some (key, max 0 c)
      else none

/-- The non-blank H2 tags followed by the non-blank H3 tags. -/
def headingsText (h2_tags h3_tags : List String) : List String :=
  h2_tags.filter presentText ++ h3_tags.filter presentText

/-- The per-field score entries accumulated by `calculate_seo_weighted_score`,
in the order the Python code scores them. -/
def scoreEntries (fieldSim : String → Option ℚ) (f : SeoFields) : List (String × ℚ) :=
  [fieldEntry fieldSim f.title "title",
   fieldEntry fieldSim f.h1 "h1",
   fieldEntry fieldSim f.meta_description "meta_description",
   (match headingsText f.h2_tags f.h3_tags with
    | [] => none
    | hs => fieldEntry fieldSim (some (joinSpace hs)) "headings"),
   fieldEntry fieldSim f.body_content "body"].reduceOption

/-- `TextAnalyzer.calculate_seo_weighted_score`, with the sentence-embedding
model abstracted: `kwOk` says whether encoding the keyword succeeds (on
failure the function returns 0), and `fieldSim s` gives the cosine similarity
of field text `s` to the keyword, `none` when embedding that field raises. -/
def calculate_seo_weighted_score (kwOk : Bool) (fieldSim : String → Option ℚ)
    (f : SeoFields) : ℚ :=
  if !kwOk then 0
  else
    let entries := scoreEntries fieldSim f
    let total_w := (entries.map (fun e => weights e.1)).sum
    if entries.isEmpty || total_w == 0 then 0
    else min 100 (max 0 (((entries.map (fun e => e.2 * (weights e.1 / total_w))).sum) * 100))

/-- Claim C3. The SEO-weighted score always lies in [0, 100]; a page with
only a (non-blank, successfully embedded) title scores exactly
`max 0 (cosine) * 100`, the title weight renormalizing to 1; the score is 0
when no field is present and 0 when the keyword embedding fails. -/
theorem seo_weighted_score_spec (kwOk : Bool) (fieldSim : String → Option ℚ)
    (f : SeoFields) :
    (0 ≤ calculate_seo_weighted_score kwOk fieldSim f
      ∧ calculate_seo_weighted_score kwOk fieldSim f ≤ 100)
    ∧ (∀ s c, f.title = some s → presentText s = true →
        fieldSim (strTake s 5000) = some c → c ≤ 1 →
        f.h1 = none → f.meta_description = none → f.h2_tags = [] → f.h3_tags = [] →
        f.body_content = none → kwOk = true →
        calculate_seo_weighted_score kwOk fieldSim f = max 0 c * 100)
    ∧ ((f.title.all fun s => ! presentText s) = true →
       (f.h1.all fun s => ! presentText s) = true →
       (f.meta_description.all fun s => ! presentText s) = true →
       headingsText f.h2_tags f.h3_tags = [] →
       (f.body_content.all fun s => ! presentText s) = true →
       calculate_seo_weighted_score kwOk fieldSim f = 0)
    ∧ (kwOk = false → calculate_seo_weighted_score kwOk fieldSim f = 0) := by
  refine ⟨?_, ?_, ?_, ?_⟩
  · unfold calculate_seo_weighted_score
    rcases kwOk with _ | _
    · simp
    · simp only [Bool.not_true, Bool.false_eq_true, if_false]
      split
      · simp
      · constructor
        · exact le_min (by norm_num) (le_max_left 0 _)
        · exact min_le_left 100 _
  · intro s c hts hps hsim hc1 hh1 hmd hh2 hh3 hbc hkw
    subst hkw
    unfold calculate_seo_weighted_score
    have hentries : scoreEntries fieldSim f = [("title", max 0 c)] := by
      unfold scoreEntries
      rw [hts, hh1, hmd, hh2, hh3, hbc]
      simp only [fieldEntry, if_pos hps, hsim, headingsText, List.filter_nil,
        List.nil_append]
      rfl
    rw [hentries]
    simp only [Bool.not_true, Bool.false_eq_true, if_false, List.map_cons, List.map_nil,
      List.sum_cons, List.sum_nil, List.isEmpty_cons, Bool.false_or]
    have hw : weights "title" = 25 / 100 := rfl
    rw [hw]
    rw [if_neg (by norm_num)]
    have h1 : (25 : ℚ) / 100 / (25 / 100 + 0) = 1 := by norm_num
    rw [h1, mul_one, add_zero]
    have hge : (0 : ℚ) ≤ max 0 c * 100 := by positivity
    have hle : max 0 c * 100 ≤ 100 := by
      have : max 0 c ≤ 1 := max_le (by norm_num) hc1
      nlinarith
    rw [max_eq_right hge, min_eq_right hle]
  · intro ht hh1 hmd hhd hbc
    unfold calculate_seo_weighted_score
    have hentries : scoreEntries fieldSim f = [] := by
      unfold scoreEntries
      rw [hhd]
      rcases hf : f.title with _ | s
      · rcases hg : f.h1 with _ | s1
        all_goals rcases hm : f.meta_description with _ | s2
        all_goals rcases hb : f.body_content with _ | s3
        all_goals simp_all [fieldEntry, Option.all_some, List.reduceOption]
      · rcases hg : f.h1 with _ | s1
        all_goals rcases hm : f.meta_description with _ | s2
        all_goals rcases hb : f.body_content with _ | s3
        all_goals simp_all [fieldEntry, Option.all_some, List.reduceOption]
    rw [hentries]
    simp
  · intro h
    subst h
    rfl

/-- Witness for claim C3: a page with only a title, similarity 1/2, scores
50; the bounds and the degenerate cases hold at that input. -/
theorem seo_weighted_score_spec_witness :
    calculate_seo_weighted_score true (fun _ => some ((1 : ℚ) / 2))
      { title := some "hello" } = max 0 ((1 : ℚ) / 2) * 100 :=
  (seo_weighted_score_spec true (fun _ => some ((1 : ℚ) / 2))
      { title := some "hello" }).2.1 "hello" ((1 : ℚ) / 2)
    rfl (by decide) rfl (by norm_num) rfl rfl rfl rfl rfl rfl

/-! ### N-gram tables and the Relevance Filter
(`TextAnalyzer._filter_ngrams_by_relevance`, `get_significant_ngrams`) -/

/-- A three-order n-gram table (unigrams, bigrams, trigrams), each an
insertion-ordered phrase-to-frequency association list. -/
structure NgramTables (α : Type) where
  unigrams : List (String × α) := []
  bigrams : List (String × α) := []
  trigrams : List (String × α) := []
deriving DecidableEq

/-- The BERT relevance-filtering provider of `TextAnalyzer`: `enabled` is
whether the BERT model loaded; `kwEmb kw` is whether `_bert_embed(kw)`
succeeds; `batchSims kw phrases` gives the cosine similarities of the batch
embeddings of `phrases` to the embedding of `kw`, or `none` when the batch
embedding fails or `cosine_similarity` raises (the filter then keeps that
whole table). -/
structure Bert where
  enabled : Bool
  kwEmb : String → Bool
  batchSims : String → List String → Option (List ℚ)

/-- One n-gram order inside `_filter_ngrams_by_relevance`: an empty table is
skipped (stays empty); a failed batch embedding keeps the whole table;
otherwise exactly the phrases with similarity ≥ threshold survive, with
their original counts. -/
def filterTable (sims : Option (List ℚ)) (t : ℚ) (phrases : List (String × Nat)) :
    List (String × Nat) :=
  if phrases.isEmpty then []
  else
    match sims with
    | none => phrases
    | some ss => ((phrases.zip ss).filter (fun e => decide (t ≤ e.2))).map Prod.fst

/-- `TextAnalyzer._filter_ngrams_by_relevance` for keyword `kw`: when the
BERT model is missing or the keyword embedding is `None`, the input is
returned unchanged. -/
def filter_ngrams_by_relevance (b : Bert) (kw : String) (kwOk : Bool) (t : ℚ)
    (tbl : NgramTables Nat) : NgramTables Nat :=
  if !b.enabled || !kwOk then tbl
  else
    { unigrams := filterTable (b.batchSims kw (tbl.unigrams.map Prod.fst)) t tbl.unigrams,
      bigrams := filterTable (b.batchSims kw (tbl.bigrams.map Prod.fst)) t tbl.bigrams,
      trigrams := filterTable (b.batchSims kw (tbl.trigrams.map Prod.fst)) t tbl.trigrams }

/-- Sort a phrase table by frequency descending (stable) and keep the first
`top_n` entries, as in the final line of `get_significant_ngrams`. -/
def topNSorted (top_n : Nat) (l : List (String × Nat)) : List (String × Nat) :=
  (List.insertionSort byFreqDesc l).take top_n

/-- One n-gram order of the final stage of `get_significant_ngrams`:
nonempty tables are deduped, sorted by frequency and truncated; empty tables
remain empty. -/
def finalizeTable (lt : ℚ) (top_n : Nat) (phrases : List (String × Nat)) :
    List (String × Nat) :=
  if phrases.isEmpty then [] else topNSorted top_n (dedup_levenshtein lt phrases)

/-- `TextAnalyzer.get_significant_ngrams` downstream of raw n-gram
extraction: `raw` is the table of top `5*top_n` candidates per order built
from the text; the relevance filter runs when the keyword embedding is
available, then each order is deduped, sorted and truncated to `top_n`. -/
def get_significant_ngrams_from (b : Bert) (kw : String) (raw : NgramTables Nat)
    (top_n : Nat) (bt lt : ℚ) : NgramTables Nat :=
  let kwOk := b.enabled && b.kwEmb kw
  let relevant := if kwOk then filter_ngrams_by_relevance b kw kwOk bt raw else raw
  { unigrams := finalizeTable lt top_n relevant.unigrams,
    bigrams := finalizeTable lt top_n relevant.bigrams,
    trigrams := finalizeTable lt top_n relevant.trigrams }

/-- Claim C5, amended part: with the BERT provider disabled the Relevance
Filter returns its input tables unchanged, for every call (no flag anywhere
records that filtering was skipped). -/
theorem filter_disabled_id (b : Bert) (kw : String) (kwOk : Bool) (t : ℚ)
    (tbl : NgramTables Nat) (hb : b.enabled = false) :
    filter_ngrams_by_relevance b kw kwOk t tbl = tbl := by
  unfold filter_ngrams_by_relevance
  rw [hb]
  rfl

/-- Witness for the amended claim C5 at a concrete disabled provider. -/
theorem filter_disabled_id_witness :
    filter_ngrams_by_relevance ⟨false, fun _ => false, fun _ _ => none⟩ "kw" true
      ((1 : ℚ) / 2) { unigrams := [("alpha", 2)] } = { unigrams := [("alpha", 2)] } :=
  filter_disabled_id ⟨false, fun _ => false, fun _ _ => none⟩ "kw" true ((1 : ℚ) / 2)
    { unigrams := [("alpha", 2)] } rfl

unseal Rat.mul Rat.inv Rat.add Rat.sub in
/-- Counterexample to claim C5 as stated: the pipeline output carries no
flag, and a run with the provider disabled produces an output identical to a
run with the provider enabled (every phrase relevant), so a degraded
unfiltered result is not distinguishable downstream from a filtered one. -/
theorem filter_disabled_not_distinguishable :
    get_significant_ngrams_from ⟨false, fun _ => false, fun _ _ => none⟩ "kw"
      { unigrams := [("alpha", 2)] } 50 ((1 : ℚ) / 2) ((17 : ℚ) / 20)
    = get_significant_ngrams_from
        ⟨true, fun _ => true, fun _ ps => some (ps.map (fun _ => 1))⟩ "kw"
        { unigrams := [("alpha", 2)] } 50 ((1 : ℚ) / 2) ((17 : ℚ) / 20) := by
  decide

/-- The relevance filter only keeps entries of its input table. -/
theorem filterTable_subset (sims : Option (List ℚ)) (t : ℚ)
    (phrases : List (String × Nat)) :
    ∀ e ∈ filterTable sims t phrases, e ∈ phrases := by
  intro e he
  unfold filterTable at he
  split at he
  · simp at he
  · split at he
    · exact he
    · rcases List.mem_map.mp he with ⟨pair, hpair, rfl⟩
      exact (List.of_mem_zip (List.mem_filter.mp hpair).1).1

/-- The collapser only keeps entries of its input table. -/
theorem dedup_levenshtein_subset (t : ℚ) (l : List (String × Nat)) :
    ∀ e ∈ dedup_levenshtein t l, e ∈ l := by
  intro e he
  have h1 : e ∈ List.insertionSort byFreqDesc l :=
    (dedupScan_sublist t (List.insertionSort byFreqDesc l) []).subset he
  exact (List.perm_insertionSort byFreqDesc l).subset h1

/-- The final sorting/truncation only keeps entries of its input table. -/
theorem finalizeTable_subset (lt : ℚ) (top_n : Nat) (l : List (String × Nat)) :
    ∀ e ∈ finalizeTable lt top_n l, e ∈ l := by
  intro e he
  unfold finalizeTable at he
  split at he
  · simp at he
  · have h1 : e ∈ List.insertionSort byFreqDesc (dedup_levenshtein lt l) :=
      (List.take_sublist top_n _).subset he
    have h2 : e ∈ dedup_levenshtein lt l :=
      (List.perm_insertionSort byFreqDesc _).subset h1
    exact dedup_levenshtein_subset lt l e h2

/-- Claim C10. Every phrase surviving the significant-n-gram pipeline keeps
exactly the count it had in the raw extracted table of its order: each final
entry is an entry of the corresponding raw table, so the filter and the
collapser only remove entries and never alter, merge or renormalize counts,
and the final phrase set is a subset of the raw top-5N candidates. -/
theorem significant_ngrams_counts_preserved (b : Bert) (kw : String)
    (raw : NgramTables Nat) (top_n : Nat) (bt lt : ℚ) (p : String) (c : Nat) :
    ((p, c) ∈ (get_significant_ngrams_from b kw raw top_n bt lt).unigrams →
      (p, c) ∈ raw.unigrams)
    ∧ ((p, c) ∈ (get_significant_ngrams_from b kw raw top_n bt lt).bigrams →
      (p, c) ∈ raw.bigrams)
    ∧ ((p, c) ∈ (get_significant_ngrams_from b kw raw top_n bt lt).trigrams →
      (p, c) ∈ raw.trigrams) := by
  have hrel : ∀ l1 l2 l3 : List (String × Nat),
      ((if (b.enabled && b.kwEmb kw) = true
        then filter_ngrams_by_relevance b kw (b.enabled && b.kwEmb kw) bt raw
        else raw).unigrams = l1) →
      ((if (b.enabled && b.kwEmb kw) = true
        then filter_ngrams_by_relevance b kw (b.enabled && b.kwEmb kw) bt raw
        else raw).bigrams = l2) →
      ((if (b.enabled && b.kwEmb kw) = true
        then filter_ngrams_by_relevance b kw (b.enabled && b.kwEmb kw) bt raw
        else raw).trigrams = l3) →
      (∀ e ∈ l1, e ∈ raw.unigrams) ∧ (∀ e ∈ l2, e ∈ raw.bigrams)
        ∧ (∀ e ∈ l3, e ∈ raw.trigrams) := by
    intro l1 l2 l3 h1 h2 h3
    by_cases hkw : (b.enabled && b.kwEmb kw) = true
    · rw [if_pos hkw] at h1 h2 h3
      have he := (Bool.and_eq_true _ _).mp hkw
      have hcond : (!b.enabled || !(b.enabled && b.kwEmb kw)) = false := by
        rw [hkw, he.1]
        rfl
      unfold filter_ngrams_by_relevance at h1 h2 h3
      rw [hcond] at h1 h2 h3
      simp only [Bool.false_eq_true, if_false] at h1 h2 h3
      subst h1 h2 h3
      exact ⟨filterTable_subset _ _ _, filterTable_subset _ _ _, filterTable_subset _ _ _⟩
    · rw [if_neg hkw] at h1 h2 h3
      subst h1 h2 h3
      exact ⟨fun e he => he, fun e he => he, fun e he => he⟩
  obtain ⟨hu, hb2, ht⟩ := hrel _ _ _ rfl rfl rfl
  refine ⟨?_, ?_, ?_⟩
  · intro h
    exact hu (p, c) (finalizeTable_subset lt top_n _ (p, c) h)
  · intro h
    exact hb2 (p, c) (finalizeTable_subset lt top_n _ (p, c) h)
  · intro h
    exact ht (p, c) (finalizeTable_subset lt top_n _ (p, c) h)

unseal Rat.mul Rat.inv Rat.add Rat.sub in
/-- Witness for claim C10 at a concrete input: the surviving phrase keeps
its raw count. -/
theorem significant_ngrams_counts_preserved_witness :
    ("alpha", 2) ∈ (NgramTables.unigrams { unigrams := [("alpha", 2)] }) :=
  (significant_ngrams_counts_preserved ⟨false, fun _ => false, fun _ _ => none⟩ "kw"
      { unigrams := [("alpha", 2)] } 50 ((1 : ℚ) / 2) ((17 : ℚ) / 20) "alpha" 2).1
    (by decide)

/-! ### Competitor aggregation and differential
(`SemanticScoreEngine._analyze_competitor_ngrams`, `_calculate_diff`) -/

/-- First-match lookup (Python `dict.get(k, 0)`) in a Nat-valued table. -/
def lookupN (l : List (String × Nat)) (k : String) : Nat :=
  ((l.find? (fun e => e.1 == k)).map (fun e => e.2)).getD 0

/-- First-match lookup (Python `dict.get(k, 0)`) in a rational-valued table. -/
def lookupQ (l : List (String × ℚ)) (k : String) : ℚ :=
  ((l.find? (fun e => e.1 == k)).map (fun e => e.2)).getD 0

/-- Python `d[p] = d.get(p, 0) + f` on an insertion-ordered dict: update the
entry in place if the key exists, otherwise append it. -/
def bump (acc : List (String × ℚ)) (p : String) (f : ℚ) : List (String × ℚ) :=
  if acc.any (fun e => e.1 == p) then
    acc.map (fun e => if e.1 == p then (e.1, e.2 + f) else e)
  else acc ++ [(p, f)]

/-- Accumulate one page's table into the running totals, as the inner loop
of `_analyze_competitor_ngrams` does. -/
def addCounts (acc : List (String × ℚ)) (tbl : List (String × Nat)) : List (String × ℚ) :=
  tbl.foldl (fun a e => bump a e.1 (e.2 : ℚ)) acc

/-- Total frequency of each phrase across all competitor pages (`all_freq`). -/
def sumFreqs (tbls : List (List (String × Nat))) : List (String × ℚ) :=
  tbls.foldl addCounts []

/-- Per-phrase competitor average: the summed frequency divided by
`count = len(ngram_results)`, the total number of competitor pages analyzed
(not the number of pages containing the phrase). -/
def avgFreqs (tbls : List (List (String × Nat))) (k : Nat) : List (String × ℚ) :=
  (sumFreqs tbls).map (fun e => (e.1, e.2 / (k : ℚ)))

/-- First-occurrence deduplication of a key list (the iteration order chosen
for the union `set(dom) | set(avg)` of `_calculate_diff`, whose Python
iteration order is unspecified; the claims only use membership and values). -/
def dedupKeys : List String → List String
  | [] => []
  | x :: xs => x :: (dedupKeys xs).filter (fun y => !(y == x))

/-- `_calculate_diff` for one n-gram order: over the union of the domain and
competitor-average keys, domain count minus competitor average, a missing
side counting 0. -/
def diffTable (dom : List (String × Nat)) (avg : List (String × ℚ)) :
    List (String × ℚ) :=
  (dedupKeys (dom.map Prod.fst ++ avg.map Prod.fst)).map
    (fun p => (p, (lookupN dom p : ℚ) - lookupQ avg p))

/-- Lookup past a matching head. -/
theorem lookupQ_cons_of_pos (e : String × ℚ) (l : List (String × ℚ)) (q : String)
    (h : (e.1 == q) = true) : lookupQ (e :: l) q = e.2 := by
  unfold lookupQ
  have hf : List.find? (fun x : String × ℚ => x.1 == q) (e :: l) = some e :=
    List.find?_cons_of_pos _ h
  rw [hf]
  rfl

/-- Lookup past a non-matching head. -/
theorem lookupQ_cons_of_neg (e : String × ℚ) (l : List (String × ℚ)) (q : String)
    (h : (e.1 == q) = false) : lookupQ (e :: l) q = lookupQ l q := by
  unfold lookupQ
  rw [List.find?_cons_of_neg _ (by simp [h])]

/-- Lookup past a matching head (Nat values). -/
theorem lookupN_cons_of_pos (e : String × Nat) (l : List (String × Nat)) (q : String)
    (h : (e.1 == q) = true) : lookupN (e :: l) q = e.2 := by
  unfold lookupN
  have hf : List.find? (fun x : String × Nat => x.1 == q) (e :: l) = some e :=
    List.find?_cons_of_pos _ h
  rw [hf]
  rfl

/-- Lookup past a non-matching head (Nat values). -/
theorem lookupN_cons_of_neg (e : String × Nat) (l : List (String × Nat)) (q : String)
    (h : (e.1 == q) = false) : lookupN (e :: l) q = lookupN l q := by
  unfold lookupN
  rw [List.find?_cons_of_neg _ (by simp [h])]

/-- A key absent from a Nat table looks up to 0. -/
theorem lookupN_not_mem (l : List (String × Nat)) (p : String)
    (h : p ∉ l.map Prod.fst) : lookupN l p = 0 := by
  unfold lookupN
  rw [List.find?_eq_none.mpr]
  · rfl
  · intro e he hbeq
    exact h (List.mem_map.mpr ⟨e, he, beq_iff_eq.mp hbeq⟩)

/-- A key absent from a rational table looks up to 0. -/
theorem lookupQ_not_mem (l : List (String × ℚ)) (p : String)
    (h : p ∉ l.map Prod.fst) : lookupQ l p = 0 := by
  unfold lookupQ
  rw [List.find?_eq_none.mpr]
  · rfl
  · intro e he hbeq
    exact h (List.mem_map.mpr ⟨e, he, beq_iff_eq.mp hbeq⟩)

/-- A non-matching head is transparent to `bump`. -/
theorem bump_cons_ne (e : String × ℚ) (rest : List (String × ℚ)) (p : String) (f : ℚ)
    (h : (e.1 == p) = false) : bump (e :: rest) p f = e :: bump rest p f := by
  unfold bump
  rw [List.any_cons, h, Bool.false_or]
  split
  · rw [List.map_cons, if_neg (by simp_all)]
  · rfl

/-- `bump` adds `f` to the looked-up value of the bumped key. -/
theorem lookupQ_bump_self : ∀ (acc : List (String × ℚ)) (p : String) (f : ℚ),
    lookupQ (bump acc p f) p = lookupQ acc p + f
  | [], p, f => by
    unfold bump lookupQ
    simp
  | e :: rest, p, f => by
    rcases he : (e.1 == p) with _ | _
    · rw [bump_cons_ne e rest p f he, lookupQ_cons_of_neg _ _ _ he,
        lookupQ_cons_of_neg _ _ _ he]
      exact lookupQ_bump_self rest p f
    · unfold bump
      rw [List.any_cons, he, Bool.true_or, if_pos rfl, List.map_cons, if_pos he]
      rw [lookupQ_cons_of_pos _ _ _ (by simpa using he), lookupQ_cons_of_pos _ _ _ he]

/-- `bump` leaves every other key's looked-up value unchanged. -/
theorem lookupQ_bump_ne : ∀ (acc : List (String × ℚ)) (p q : String) (f : ℚ),
    q ≠ p → lookupQ (bump acc p f) q = lookupQ acc q
  | [], p, q, f, hne => by
    unfold bump lookupQ
    simp [show (p == q) = false by simpa using fun h => hne h.symm]
  | e :: rest, p, q, f, hne => by
    rcases he : (e.1 == p) with _ | _
    · rw [bump_cons_ne e rest p f he]
      rcases heq : (e.1 == q) with _ | _
      · rw [lookupQ_cons_of_neg _ _ _ heq, lookupQ_cons_of_neg _ _ _ heq]
        exact lookupQ_bump_ne rest p q f hne
      · rw [lookupQ_cons_of_pos _ _ _ heq, lookupQ_cons_of_pos _ _ _ heq]
    · have he1 : e.1 = p := beq_iff_eq.mp he
      have heq : (e.1 == q) = false := by
        simp only [he1, beq_eq_false_iff_ne]
        exact fun h => hne h.symm
      unfold bump
      rw [List.any_cons, he, Bool.true_or, if_pos rfl, List.map_cons, if_pos he]
      rw [lookupQ_cons_of_neg _ _ _ (by simpa using heq), lookupQ_cons_of_neg _ _ _ heq]
      clear he he1 heq
      induction rest with
      | nil => rfl
      | cons a as ih =>
        rcases ha : (a.1 == q) with _ | _
        · have hfst : ((if a.1 == p then (a.1, a.2 + f) else a) : String × ℚ).1 = a.1 := by
            split <;> rfl
          rw [List.map_cons, lookupQ_cons_of_neg _ _ _ (by rw [hfst]; exact ha),
            lookupQ_cons_of_neg _ _ _ ha]
          exact ih
        · have ha1 : a.1 = q := beq_iff_eq.mp ha
          have hap : (a.1 == p) = false := by
            simp only [ha1, beq_eq_false_iff_ne]
            exact hne
          rw [List.map_cons, hap]
          simp only [Bool.false_eq_true, if_false]
          rw [lookupQ_cons_of_pos _ _ _ ha, lookupQ_cons_of_pos _ _ _ ha]

/-- The keys after a `bump` are the old keys plus the bumped key. -/
theorem mem_keys_bump (acc : List (String × ℚ)) (p q : String) (f : ℚ) :
    q ∈ (bump acc p f).map Prod.fst ↔ q ∈ acc.map Prod.fst ∨ q = p := by
  unfold bump
  split
  · rename_i hany
    have hp : p ∈ acc.map Prod.fst := by
      rw [List.any_eq_true] at hany
      obtain ⟨e, he, hbeq⟩ := hany
      exact List.mem_map.mpr ⟨e, he, beq_iff_eq.mp (by simpa using hbeq)⟩
    rw [List.map_map]
    have hfn : (Prod.fst ∘ fun e : String × ℚ => if e.1 == p then (e.1, e.2 + f) else e)
        = Prod.fst := by
      funext e
      simp only [Function.comp_apply]
      split <;> rfl
    rw [hfn]
    constructor
    · exact Or.inl
    · rintro (h | rfl)
      · exact h
      · exact hp
  · simp [List.map_append]

/-- Looking up after accumulating a table with distinct keys adds that
table's count. -/
theorem lookupQ_addCounts : ∀ (tbl : List (String × Nat)) (acc : List (String × ℚ))
    (p : String), (tbl.map Prod.fst).Nodup →
    lookupQ (addCounts acc tbl) p = lookupQ acc p + (lookupN tbl p : ℚ)
  | [], acc, p, _ => by
    unfold addCounts lookupN
    simp
  | (q, n) :: rest, acc, p, hnd => by
    rw [List.map_cons, List.nodup_cons] at hnd
    unfold addCounts
    rw [List.foldl_cons]
    have step := lookupQ_addCounts rest (bump acc q (n : ℚ)) p hnd.2
    unfold addCounts at step
    rw [step]
    rcases eq_or_ne p q with rfl | hne
    · rw [lookupQ_bump_self, lookupN_not_mem rest p hnd.1,
        lookupN_cons_of_pos _ _ _ (by simp)]
      push_cast
      ring
    · rw [lookupQ_bump_ne acc q p (n : ℚ) hne,
        lookupN_cons_of_neg _ _ _ (by simp; exact fun h => hne h.symm)]

/-- The keys after accumulating a table are the union of both key sets. -/
theorem mem_keys_addCounts : ∀ (tbl : List (String × Nat)) (acc : List (String × ℚ))
    (q : String),
    q ∈ (addCounts acc tbl).map Prod.fst ↔
      q ∈ acc.map Prod.fst ∨ q ∈ tbl.map Prod.fst
  | [], acc, q => by
    unfold addCounts
    simp
  | (r, n) :: rest, acc, q => by
    unfold addCounts
    rw [List.foldl_cons]
    have step := mem_keys_addCounts rest (bump acc r (n : ℚ)) q
    unfold addCounts at step
    rw [step, mem_keys_bump]
    simp only [List.map_cons, List.mem_cons]
    tauto

/-- Looking up in the accumulated totals sums the per-page lookups. -/
theorem lookupQ_sumFreqs_aux : ∀ (tbls : List (List (String × Nat)))
    (acc : List (String × ℚ)) (p : String),
    (∀ t ∈ tbls, (t.map Prod.fst).Nodup) →
    lookupQ (tbls.foldl addCounts acc) p
      = lookupQ acc p + ((tbls.map (fun t => (lookupN t p : ℚ))).sum)
  | [], acc, p, _ => by simp
  | t :: rest, acc, p, hnd => by
    rw [List.foldl_cons,
      lookupQ_sumFreqs_aux rest (addCounts acc t) p
        (fun u hu => hnd u (List.mem_cons_of_mem t hu)),
      lookupQ_addCounts t acc p (hnd t (List.mem_cons_self t rest))]
    simp only [List.map_cons, List.sum_cons]
    ring

/-- The total-frequency table looks up to the sum of per-page lookups. -/
theorem lookupQ_sumFreqs (tbls : List (List (String × Nat))) (p : String)
    (hnd : ∀ t ∈ tbls, (t.map Prod.fst).Nodup) :
    lookupQ (sumFreqs tbls) p = ((tbls.map (fun t => (lookupN t p : ℚ))).sum) := by
  unfold sumFreqs
  rw [lookupQ_sumFreqs_aux tbls [] p hnd]
  simp [lookupQ]

/-- Dividing every value of a table divides its lookups. -/
theorem lookupQ_map_div : ∀ (l : List (String × ℚ)) (k : Nat) (p : String),
    lookupQ (l.map (fun e => (e.1, e.2 / (k : ℚ)))) p = lookupQ l p / (k : ℚ)
  | [], k, p => by simp [lookupQ]
  | e :: rest, k, p => by
    rcases he : (e.1 == p) with _ | _
    · rw [List.map_cons, lookupQ_cons_of_neg (e.1, e.2 / (k : ℚ)) _ p (by simpa using he),
        lookupQ_cons_of_neg e rest p he]
      exact lookupQ_map_div rest k p
    · rw [List.map_cons, lookupQ_cons_of_pos (e.1, e.2 / (k : ℚ)) _ p (by simpa using he),
        lookupQ_cons_of_pos e rest p he]

/-- Membership in the deduplicated key list is membership in the original. -/
theorem mem_dedupKeys : ∀ (l : List String) (q : String), q ∈ dedupKeys l ↔ q ∈ l
  | [], q => Iff.rfl
  | x :: xs, q => by
    unfold dedupKeys
    simp only [List.mem_cons, List.mem_filter, mem_dedupKeys xs q, Bool.not_eq_eq_eq_not,
      Bool.not_false, beq_iff_eq]
    constructor
    · rintro (rfl | ⟨h, _⟩)
      · exact Or.inl rfl
      · exact Or.inr h
    · rintro (rfl | h)
      · exact Or.inl rfl
      · rcases eq_or_ne q x with rfl | hne
        · exact Or.inl rfl
        · exact Or.inr ⟨h, by simpa using hne⟩

/-- Lookup in a table built over a key list by a value function. -/
theorem lookupQ_over_keys : ∀ (ks : List String) (fn : String → ℚ) (q : String),
    lookupQ (ks.map (fun p => (p, fn p))) q = if q ∈ ks then fn q else 0
  | [], fn, q => by simp [lookupQ]
  | k :: ks, fn, q => by
    rcases hk : (k == q) with _ | _
    · have hne : q ≠ k := fun h => by simp [h] at hk
      have hiff : (q ∈ k :: ks) ↔ (q ∈ ks) := by simp [List.mem_cons, hne]
      rw [List.map_cons, lookupQ_cons_of_neg _ _ _ hk, if_congr hiff rfl rfl]
      exact lookupQ_over_keys ks fn q
    · have hkq : k = q := beq_iff_eq.mp hk
      subst hkq
      rw [List.map_cons, lookupQ_cons_of_pos _ _ _ (by simp), if_pos (by simp)]

/-- Claim C1. For each n-gram order the differential covers exactly the
union of domain and competitor-average phrases; its value at any phrase is
the domain count minus the competitor average, a missing side counting 0;
and the competitor average of a phrase is its summed frequency over all
pages divided by the total number of competitor pages analyzed. -/
theorem ngram_differential_spec (dom : List (String × Nat))
    (tbls : List (List (String × Nat))) (p : String)
    (hnd : ∀ t ∈ tbls, (t.map Prod.fst).Nodup) :
    (p ∈ (diffTable dom (avgFreqs tbls tbls.length)).map Prod.fst ↔
      p ∈ dom.map Prod.fst ∨ p ∈ (avgFreqs tbls tbls.length).map Prod.fst)
    ∧ lookupQ (diffTable dom (avgFreqs tbls tbls.length)) p
        = (lookupN dom p : ℚ) - lookupQ (avgFreqs tbls tbls.length) p
    ∧ lookupQ (avgFreqs tbls tbls.length) p
        = ((tbls.map (fun t => (lookupN t p : ℚ))).sum) / (tbls.length : ℚ) := by
  have hkeys : (diffTable dom (avgFreqs tbls tbls.length)).map Prod.fst
      = dedupKeys (dom.map Prod.fst ++ (avgFreqs tbls tbls.length).map Prod.fst) := by
    unfold diffTable
    rw [List.map_map]
    have hid : (Prod.fst ∘ fun p =>
        ((p, (lookupN dom p : ℚ) - lookupQ (avgFreqs tbls tbls.length) p) : String × ℚ))
        = id := funext fun _ => rfl
    rw [hid, List.map_id]
  refine ⟨?_, ?_, ?_⟩
  · rw [hkeys, mem_dedupKeys, List.mem_append]
  · unfold diffTable
    rw [lookupQ_over_keys]
    split
    · rfl
    · rename_i hnotin
      rw [mem_dedupKeys, List.mem_append] at hnotin
      push_neg at hnotin
      rw [lookupN_not_mem dom p hnotin.1, lookupQ_not_mem _ p hnotin.2]
      norm_num
  · unfold avgFreqs
    rw [lookupQ_map_div, lookupQ_sumFreqs tbls p hnd]

unseal Rat.mul Rat.inv Rat.add Rat.sub in
/-- Witness for claim C1, the spec's scenario: three competitor pages with
frequencies 4, 6, 8 for a phrase and a domain count of 5 give competitor
average 6 and differential -1. -/
theorem ngram_differential_spec_witness :
    lookupQ (avgFreqs [[("agence seo", 4)], [("agence seo", 6)], [("agence seo", 8)]]
        (List.length [[("agence seo", 4)], [("agence seo", 6)], [("agence seo", 8)]]))
      "agence seo" = 6
    ∧ lookupQ (diffTable [("agence seo", 5)]
        (avgFreqs [[("agence seo", 4)], [("agence seo", 6)], [("agence seo", 8)]]
          (List.length [[("agence seo", 4)], [("agence seo", 6)], [("agence seo", 8)]])))
      "agence seo" = -1 := by
  have h := ngram_differential_spec [("agence seo", 5)]
    [[("agence seo", 4)], [("agence seo", 6)], [("agence seo", 8)]] "agence seo"
    (by decide)
  refine ⟨?_, ?_⟩
  · rw [h.2.2]
    decide
  · rw [h.2.1, h.2.2]
    decide

/-! ### Orchestrator data model (`core/models.py`) and the batch loop
(`SemanticScoreEngine._async_analyze_all`) -/

/-- `IndividualURLResult` of core/models.py (dataclass field defaults). -/
structure IndividualURLResult where
  url : String
  position : Nat
  title : Option String := none
  meta_description : Option String := none
  semantic_score : Option ℚ := none
  h1 : Option String := none
  h2_tags : List String := []
  h3_tags : List String := []
  body_content : Option String := none
  word_count : Nat := 0
  scrape_method : Option String := none
deriving DecidableEq

/-- `SemanticScoreResult` of core/models.py. The empty-dict defaults of
`domain_ngrams` / `average_competitor_ngrams` (falsy in Python) are modelled
as `none`; a set value is a three-key table, truthy even when its inner
tables are empty. `analysis_time`, `raw_ngrams_context` and the GPT output
fields are not modelled (no claim mentions them). -/
structure SemanticScoreResult where
  keyword : String
  domain_position : Option Nat := none
  domain_url : Option String := none
  domain_score : Option ℚ := none
  domain_content : Option String := none
  domain_h1 : Option String := none
  domain_title : Option String := none
  average_score : Option ℚ := none
  average_competitor_score : Option ℚ := none
  domain_ngrams : Option (NgramTables Nat) := none
  average_competitor_ngrams : Option (NgramTables ℚ) := none
  keyword_density : Option ℚ := none
  faq_questions : List String := []
  ngram_differential : Option (NgramTables ℚ) := none
  top_results : List IndividualURLResult := []
  error : Option String := none
deriving DecidableEq

/-- `SemanticScoreResult(keyword=kw, error=str(e))` built by the except
branch of `_async_analyze_all`. -/
def errorResult (kw e : String) : SemanticScoreResult := { keyword := kw, error := some e }

/-- `SemanticScoreEngine._async_analyze_all`: analyze the keywords strictly
in order; an exception from one keyword's analysis (modelled as
`analyze kw = .error e`) is recorded as that keyword's error result and the
loop continues with the next keyword. -/
def async_analyze_all (analyze : String → Except String SemanticScoreResult)
    (keywords : List String) : List SemanticScoreResult :=
  keywords.map (fun kw =>
    match analyze kw with
    | Except.ok r => r
    | Except.error e => errorResult kw e)

/-- Claim C6. The batch returns exactly one result per input keyword, in
order; a keyword whose analysis raises yields a result carrying that error
string (and nothing else), without aborting the batch: every other index
still holds exactly the result of its own keyword's analysis. -/
theorem async_analyze_all_isolation (analyze : String → Except String SemanticScoreResult)
    (keywords : List String) :
    (async_analyze_all analyze keywords).length = keywords.length
    ∧ ∀ (i : Nat) (kw : String), keywords[i]? = some kw →
        ((∀ e, analyze kw = Except.error e →
            (async_analyze_all analyze keywords)[i]? = some (errorResult kw e))
         ∧ (∀ r, analyze kw = Except.ok r →
            (async_analyze_all analyze keywords)[i]? = some r)) := by
  refine ⟨List.length_map _ _, ?_⟩
  intro i kw hkw
  constructor
  · intro e he
    unfold async_analyze_all
    rw [List.getElem?_map, hkw]
    simp only [Option.map_some']
    rw [he]
  · intro r hr
    unfold async_analyze_all
    rw [List.getElem?_map, hkw]
    simp only [Option.map_some']
    rw [hr]

/-- Witness for claim C6: a two-keyword batch where the first analysis
raises still yields two results, the first carrying the error and the second
the successful analysis. -/
theorem async_analyze_all_isolation_witness :
    ((async_analyze_all
        (fun kw => if kw == "a" then Except.error "boom"
          else Except.ok { keyword := kw }) ["a", "b"]).length = 2)
    ∧ (async_analyze_all
        (fun kw => if kw == "a" then Except.error "boom"
          else Except.ok { keyword := kw }) ["a", "b"])[0]? = some (errorResult "a" "boom")
    ∧ (async_analyze_all
        (fun kw => if kw == "a" then Except.error "boom"
          else Except.ok { keyword := kw }) ["a", "b"])[1]? = some { keyword := "b" } := by
  have h := async_analyze_all_isolation
    (fun kw => if kw == "a" then Except.error "boom" else Except.ok { keyword := kw })
    ["a", "b"]
  refine ⟨h.1, ((h.2 0 "a" rfl).1 "boom" rfl), ((h.2 1 "b" rfl).2 { keyword := "b" } rfl)⟩

/-! ### Fetch-and-parse and result population
(`SemanticScoreEngine._fetch_all`, `_populate_results`, `_analyze_keyword`) -/

/-- One SERP item as consumed by the engine (the `item.get(...)` fields). -/
structure SearchItem where
  type_ : Option String := none
  url : Option String := none
  rank_absolute : Option Nat := none
  title : Option String := none
deriving DecidableEq

/-- Python truthiness of an optional string (`None` and `""` are falsy). -/
def optTruthy : Option String → Bool
  | none => false
  | some s => !s.data.isEmpty

/-- The outcome of awaiting `api_client.parse_content(url)`: an exception, a
value that is not a 7-tuple, or the 7-tuple of page data. -/
inductive FetchOutcome
  | exn
  | malformed
  | ok (content h1 title meta : Option String) (h2 h3 : List String) (method : String)
deriving DecidableEq

/-- The `content` component of a fetch outcome (`none` unless a 7-tuple). -/
def FetchOutcome.content : FetchOutcome → Option String
  | .ok c _ _ _ _ _ _ => c
  | _ => none

/-- Whether a fetched URL contributes text (`if content:` in `_fetch_all`). -/
def contentTruthy (fetch : String → FetchOutcome) (v : String) : Bool :=
  optTruthy (FetchOutcome.content (fetch v))

/-- One URL's entry in the `url_data` dict. -/
structure UrlData where
  content : Option String := none
  h1 : Option String := none
  title : Option String := none
  meta_description : Option String := none
  h2_tags : List String := []
  h3_tags : List String := []
  score : Option ℚ := none
  scrape_method : String := "failed"
deriving DecidableEq

/-- `SemanticScoreEngine._empty_url_data`. -/
def empty_url_data : UrlData := {}

/-- The `url_data` entry built from one fetch outcome. -/
def urlDataOf : FetchOutcome → UrlData
  | .exn => empty_url_data
  | .malformed => empty_url_data
  | .ok c h1 t m h2 h3 method =>
      { content := c, h1 := h1, title := t, meta_description := m,
        h2_tags := h2, h3_tags := h3, score := none, scrape_method := method }

/-- The domain 7-tuple minus the method tag, as stored in
`domain_content_data`. -/
abbrev DomainData :=
  Option String × Option String × Option String × Option String × List String × List String

/-- The domain assignment of one fetch outcome (only the 7-tuple branch of
`_fetch_all` assigns `domain_data`). -/
def domTupleOf : FetchOutcome → Option DomainData
  | .ok c h1 t m h2 h3 _ => some (c, h1, t, m, h2, h3)
  | _ => none

/-- The accumulated state of `_fetch_all`. -/
structure FetchAllState where
  url_data : List (String × UrlData) := []
  texts : List String := []
  url_order : List String := []
  competitor_contents : List (String × String) := []
  domain_data : Option DomainData := none
  okCount : Nat := 0

/-- One iteration of the fetch loop in `_fetch_all`. -/
def fetchStep (fetch : String → FetchOutcome) (domain_url : Option String)
    (st : FetchAllState) (url : String) : FetchAllState :=
  match fetch url with
  | .exn => { st with url_data := st.url_data ++ [(url, empty_url_data)] }
  | .malformed => { st with url_data := st.url_data ++ [(url, empty_url_data)] }
  | .ok c h1 t m h2 h3 method =>
      let is_dom : Bool := some url == domain_url
      let truthy := optTruthy c
      { url_data := st.url_data ++ [(url, urlDataOf (.ok c h1 t m h2 h3 method))],
        texts := if truthy then st.texts ++ [c.getD ""] else st.texts,
        url_order := if truthy then st.url_order ++ [url] else st.url_order,
        competitor_contents :=
          if truthy && !is_dom then st.competitor_contents ++ [(url, c.getD "")]
          else st.competitor_contents,
        domain_data := if is_dom then some (c, h1, t, m, h2, h3) else st.domain_data,
        okCount := if truthy then st.okCount + 1 else st.okCount }

/-- `SemanticScoreEngine._fetch_all`: one task per distinct URL (the Python
task dict deduplicates repeated URLs, keeping first-occurrence order),
awaited in order; an exception or a non-7-tuple result yields an empty
placeholder entry. -/
def fetch_all (fetch : String → FetchOutcome) (urls : List String)
    (domain_url : Option String) : FetchAllState :=
  (dedupKeys urls).foldl (fetchStep fetch domain_url) {}

/-- Generic first-match lookup (Python `dict.get(k)`). -/
def lookupA {α : Type} (l : List (String × α)) (k : String) : Option α :=
  (l.find? (fun e => e.1 == k)).map (fun e => e.2)

/-- The SEO-scorer fields of a `url_data` entry, as passed in step 3 of
`_analyze_keyword`. -/
def seoFieldsOf (d : UrlData) : SeoFields :=
  { title := d.title, h1 := d.h1, meta_description := d.meta_description,
    h2_tags := d.h2_tags, h3_tags := d.h3_tags, body_content := d.content }

/-- Step 3 of `_analyze_keyword`: every URL of `url_order` gets its
SEO-weighted score stored into its `url_data` entry. -/
def applyScores (kwOk : Bool) (fieldSim : String → Option ℚ) (url_order : List String)
    (url_data : List (String × UrlData)) : List (String × UrlData) :=
  url_data.map (fun e =>
    if url_order.contains e.1 then
      (e.1, { e.2 with
        score := some (calculate_seo_weighted_score kwOk fieldSim (seoFieldsOf e.2)) })
    else e)

/-- Python `x or y` on optional strings (first truthy operand). -/
def pyOr (a b : Option String) : Option String := if optTruthy a then a else b

/-- `len(content.split()) if content else 0` in `_populate_results`. -/
def wordCountOf (content : Option String) : Nat :=
  if optTruthy content then pyWordCount (content.getD "") else 0

/-- The ascending-position order used to sort `top_results` (stable). -/
def byPosition (a b : IndividualURLResult) : Prop := a.position ≤ b.position

instance : DecidableRel byPosition :=
  fun a b => inferInstanceAs (Decidable (a.position ≤ b.position))

instance : IsTotal IndividualURLResult byPosition :=
  ⟨fun a b => Nat.le_total a.position b.position⟩

instance : IsTrans IndividualURLResult byPosition :=
  ⟨fun _ _ _ h1 h2 => Nat.le_trans h1 h2⟩

/-- The rows `_populate_results` iterates: items whose URL is truthy and
present in `url_data` and whose rank is non-null, each paired with its
`url_data` entry. -/
def populateRows (items : List SearchItem) (url_data : List (String × UrlData)) :
    List (SearchItem × String × Nat × UrlData) :=
  items.filterMap (fun item =>
    if optTruthy item.url then
      match lookupA url_data (item.url.getD "") with
      | some d =>
          match item.rank_absolute with
          | some pos => some (item, item.url.getD "", pos, d)
          | none => none
      | none => none
    else none)

/-- The `IndividualURLResult` row built by `_populate_results`. -/
def rowResult (r : SearchItem × String × Nat × UrlData) : IndividualURLResult :=
  match r with
  | (item, u, pos, d) =>
      { url := u, position := pos, title := pyOr d.title item.title,
        meta_description := d.meta_description, semantic_score := d.score,
        h1 := d.h1, h2_tags := d.h2_tags, h3_tags := d.h3_tags,
        body_content := d.content, word_count := wordCountOf d.content,
        scrape_method := some d.scrape_method }

/-- `SemanticScoreEngine._populate_results`: one result row per admissible
item, sorted by SERP position (stable), plus the overall and
competitors-only score averages (0 when no scores). -/
def populate_results (items : List SearchItem) (url_data : List (String × UrlData))
    (domain_url : Option String) : List IndividualURLResult × ℚ × ℚ :=
  let rows := populateRows items url_data
  let results := rows.map rowResult
  let all_scores := rows.filterMap (fun r => r.2.2.2.score)
  let comp_scores := rows.filterMap (fun r =>
    if some r.2.1 == domain_url then none else r.2.2.2.score)
  (List.insertionSort byPosition results,
    if all_scores.isEmpty then 0 else all_scores.sum / (all_scores.length : ℚ),
    if comp_scores.isEmpty then 0 else comp_scores.sum / (comp_scores.length : ℚ))

/-- Python `needle in hay` on strings. -/
def strContains (hay needle : String) : Bool := hasSub needle.data hay.data

/-- The organic items of the SERP response (`type == "organic"` with a
truthy URL). -/
def organicItems (items : List SearchItem) : List SearchItem :=
  items.filter (fun i => (i.type_ == some "organic") && optTruthy i.url)

/-- The URLs to parse, in organic-item order. -/
def organicUrls (items : List SearchItem) : List String :=
  (organicItems items).filterMap (fun i => i.url)

/-- The domain-location loop of `_analyze_keyword`: the first organic item
whose URL contains the tracked domain name case-insensitively; skipped
entirely when `domain` is empty (Python `if domain:`). -/
def find_domain_url (domain : String) (organic : List SearchItem) : Option String :=
  if domain.data.isEmpty then none
  else (organic.find? (fun item =>
      strContains (strLower (item.url.getD "")) (strLower domain))).map
    (fun item => item.url.getD "")

/-- The external collaborators of `_analyze_keyword`, as oracles: the fetch
client, the embedding model of the SEO scorer (`kwOk`, `fieldSim`), the BERT
filter provider, raw n-gram extraction (the part of `get_significant_ngrams`
upstream of `get_significant_ngrams_from`) and question extraction. The GPT
steps 8-9 only fill fields that are not modelled. -/
structure Oracles where
  fetch : String → FetchOutcome
  kwOk : Bool
  fieldSim : String → Option ℚ
  bert : Bert
  extractRaw : String → NgramTables Nat
  extractQ : String → List String

/-- `SemanticScoreEngine._analyze_domain`: record the domain position, URL,
score and page fields; when the domain page has truthy content, also its
n-gram tables, keyword density and FAQ questions. -/
def analyze_domain (r : SemanticScoreResult) (o : Oracles) (kw du : String)
    (dd : DomainData) (items : List SearchItem) (url_data : List (String × UrlData))
    (top_n : Nat) (bt lt : ℚ) : SemanticScoreResult :=
  let serp_item := items.find? (fun i => i.url == some du)
  let base := { r with
    domain_position := serp_item.bind (fun i => i.rank_absolute),
    domain_url := some du,
    domain_score := (lookupA url_data du).bind (fun d => d.score),
    domain_content := dd.1, domain_h1 := dd.2.1, domain_title := dd.2.2.1 }
  if optTruthy dd.1 then
    { base with
      domain_ngrams :=
        some (get_significant_ngrams_from o.bert kw (o.extractRaw (dd.1.getD "")) top_n bt lt),
      keyword_density := some (calculate_keyword_density (dd.1.getD "") kw),
      faq_questions := o.extractQ (dd.1.getD "") }
  else base

/-- `_analyze_competitor_ngrams` as a value: run the significant-n-gram
pipeline on every competitor page and average per phrase over the total
page count; `none` models the `{}` set when there are no competitor pages. -/
def analyze_competitor_ngrams (o : Oracles) (kw : String)
    (comp_contents : List (String × String)) (top_n : Nat) (bt lt : ℚ) :
    Option (NgramTables ℚ) :=
  let pages := comp_contents.map (fun e =>
    get_significant_ngrams_from o.bert kw (o.extractRaw e.2) top_n bt lt)
  if pages.isEmpty then none
  else some (NgramTables.mk (avgFreqs (pages.map (fun t => t.unigrams)) pages.length)
    (avgFreqs (pages.map (fun t => t.bigrams)) pages.length)
    (avgFreqs (pages.map (fun t => t.trigrams)) pages.length))

/-- `SemanticScoreEngine._calculate_diff`: the differential is computed only
when the domain tables were set and at least one competitor page was
analyzed (`{}` and `None` are both falsy in the Python guard). -/
def calculate_diff (r : SemanticScoreResult) : SemanticScoreResult :=
  match r.domain_ngrams, r.average_competitor_ngrams with
  | some d, some a =>
      { r with ngram_differential := some (NgramTables.mk
          (diffTable d.unigrams a.unigrams) (diffTable d.bigrams a.bigrams)
          (diffTable d.trigrams a.trigrams)) }
  | _, _ => { r with ngram_differential := none }

/-- The placeholder rows of the all-fetches-failed early return. -/
def earlyRows (items : List SearchItem) : List IndividualURLResult :=
  items.filterMap (fun item =>
    match item.url, item.rank_absolute with
    | some u, some pos =>
        if optTruthy (some u) then some { url := u, position := pos, title := item.title }
        else none
    | _, _ => none)

/-- The fetch-loop state of one keyword's analysis. -/
def mainFetch (o : Oracles) (domain : String) (items : List SearchItem) : FetchAllState :=
  fetch_all o.fetch (organicUrls items) (find_domain_url domain (organicItems items))

/-- The scored `url_data` of the main branch (step 3). -/
def mainScored (o : Oracles) (domain : String) (items : List SearchItem) :
    List (String × UrlData) :=
  applyScores o.kwOk o.fieldSim (mainFetch o domain items).url_order
    (mainFetch o domain items).url_data

/-- The result after step 4 (`_populate_results`). -/
def mainBase (o : Oracles) (kw domain : String) (items : List SearchItem) :
    SemanticScoreResult :=
  { keyword := kw,
    top_results := (populate_results items (mainScored o domain items)
      (find_domain_url domain (organicItems items))).1,
    average_score := some (populate_results items (mainScored o domain items)
      (find_domain_url domain (organicItems items))).2.1,
    average_competitor_score := some (populate_results items (mainScored o domain items)
      (find_domain_url domain (organicItems items))).2.2 }

/-- The result after step 5 (`_analyze_domain` or the not-found message). -/
def mainWithDomain (o : Oracles) (kw domain : String) (items : List SearchItem)
    (num_urls top_n : Nat) (bt lt : ℚ) : SemanticScoreResult :=
  if optTruthy (find_domain_url domain (organicItems items))
      && (mainFetch o domain items).domain_data.isSome then
    analyze_domain (mainBase o kw domain items) o kw
      ((find_domain_url domain (organicItems items)).getD "")
      ((mainFetch o domain items).domain_data.getD (none, none, none, none, [], []))
      items (mainScored o domain items) top_n bt lt
  else if !domain.data.isEmpty then
    { mainBase o kw domain items with
        domain_url := some ("Domain '" ++ domain ++ "' not found in Top "
          ++ toString num_urls) }
  else mainBase o kw domain items

/-- The main branch of `_analyze_keyword` (steps 3-7), reached once some page
content was retrieved: scoring, population, domain analysis, competitor
aggregation, differential. -/
def analyze_keyword_main (o : Oracles) (kw domain : String)
    (search_items : List SearchItem) (num_urls top_n : Nat) (bt lt : ℚ) :
    SemanticScoreResult :=
  calculate_diff
    { mainWithDomain o kw domain search_items num_urls top_n bt lt with
        average_competitor_ngrams := analyze_competitor_ngrams o kw
          (mainFetch o domain search_items).competitor_contents top_n bt lt }

/-- `SemanticScoreEngine._analyze_keyword` (steps 1-7; the GPT steps 8-9 and
`analysis_time` only fill unmodelled fields): SERP search result in, one
`SemanticScoreResult` out. -/
def analyze_keyword (o : Oracles) (kw domain : String)
    (search_items : List SearchItem) (num_urls top_n : Nat) (bt lt : ℚ) :
    SemanticScoreResult :=
  if search_items.isEmpty then
    { keyword := kw, error := some "No search results found." }
  else if (mainFetch o domain search_items).texts.isEmpty then
    { keyword := kw, error := some "Could not retrieve content for any URL.",
      top_results := List.insertionSort byPosition (earlyRows search_items) }
  else analyze_keyword_main o kw domain search_items num_urls top_n bt lt

/-- First-occurrence key deduplication yields distinct keys. -/
theorem dedupKeys_nodup : ∀ (l : List String), (dedupKeys l).Nodup
  | [] => List.nodup_nil
  | x :: xs => by
    unfold dedupKeys
    refine List.Nodup.cons ?_ (List.Nodup.filter _ (dedupKeys_nodup xs))
    intro hx
    have := (List.mem_filter.mp hx).2
    simp at this

/-- The `url_data` entry a step appends. -/
theorem fetchStep_url_data (f : String → FetchOutcome) (du : Option String)
    (st : FetchAllState) (v : String) :
    (fetchStep f du st v).url_data = st.url_data ++ [(v, urlDataOf (f v))] := by
  unfold fetchStep
  split
  all_goals rename_i heq
  all_goals rw [heq]
  all_goals try rfl

/-- The `url_order` update of one step. -/
theorem fetchStep_url_order (f : String → FetchOutcome) (du : Option String)
    (st : FetchAllState) (v : String) :
    (fetchStep f du st v).url_order
      = if contentTruthy f v then st.url_order ++ [v] else st.url_order := by
  unfold fetchStep contentTruthy
  split
  all_goals rename_i heq
  all_goals rw [heq]
  all_goals try rfl

/-- The `texts` update of one step. -/
theorem fetchStep_texts (f : String → FetchOutcome) (du : Option String)
    (st : FetchAllState) (v : String) :
    (fetchStep f du st v).texts
      = if contentTruthy f v
        then st.texts ++ [(FetchOutcome.content (f v)).getD ""] else st.texts := by
  unfold fetchStep contentTruthy
  split
  all_goals rename_i heq
  all_goals rw [heq]
  all_goals try rfl

/-- The `competitor_contents` update of one step. -/
theorem fetchStep_comp (f : String → FetchOutcome) (du : Option String)
    (st : FetchAllState) (v : String) :
    (fetchStep f du st v).competitor_contents
      = if contentTruthy f v && !(some v == du)
        then st.competitor_contents ++ [(v, (FetchOutcome.content (f v)).getD "")]
        else st.competitor_contents := by
  unfold fetchStep contentTruthy
  split
  all_goals rename_i heq
  all_goals rw [heq]
  all_goals try rfl

/-- The `domain_data` update of one step. -/
theorem fetchStep_dom (f : String → FetchOutcome) (du : Option String)
    (st : FetchAllState) (v : String) :
    (fetchStep f du st v).domain_data
      = if (some v == du) then ((domTupleOf (f v)).or st.domain_data)
        else st.domain_data := by
  unfold fetchStep domTupleOf
  split
  all_goals rename_i heq
  · rw [heq]
    simp
  · rw [heq]
    simp
  · rw [heq]
    rcases hd : (some v == du) with _ | _ <;> simp [hd]

/-- `url_data` after the whole fetch loop: one entry per URL, built from
that URL's own fetch outcome only. -/
theorem fetch_all_url_data_aux (f : String → FetchOutcome) (du : Option String) :
    ∀ (l : List String) (st : FetchAllState),
      (l.foldl (fetchStep f du) st).url_data
        = st.url_data ++ l.map (fun v => (v, urlDataOf (f v)))
  | [], st => by simp
  | v :: rest, st => by
    rw [List.foldl_cons, fetch_all_url_data_aux f du rest (fetchStep f du st v),
      fetchStep_url_data]
    simp

/-- `url_order` after the whole fetch loop: the URLs with truthy content, in
order. -/
theorem fetch_all_url_order_aux (f : String → FetchOutcome) (du : Option String) :
    ∀ (l : List String) (st : FetchAllState),
      (l.foldl (fetchStep f du) st).url_order
        = st.url_order ++ l.filter (contentTruthy f)
  | [], st => by simp
  | v :: rest, st => by
    rw [List.foldl_cons, fetch_all_url_order_aux f du rest (fetchStep f du st v),
      fetchStep_url_order, List.filter_cons]
    rcases h : contentTruthy f v with _ | _ <;> simp [h]

/-- `texts` after the whole fetch loop: the truthy contents, in order. -/
theorem fetch_all_texts_aux (f : String → FetchOutcome) (du : Option String) :
    ∀ (l : List String) (st : FetchAllState),
      (l.foldl (fetchStep f du) st).texts
        = st.texts ++ (l.filter (contentTruthy f)).map
            (fun v => (FetchOutcome.content (f v)).getD "")
  | [], st => by simp
  | v :: rest, st => by
    rw [List.foldl_cons, fetch_all_texts_aux f du rest (fetchStep f du st v),
      fetchStep_texts, List.filter_cons]
    rcases h : contentTruthy f v with _ | _ <;> simp [h]

/-- `competitor_contents` after the whole fetch loop: the non-domain URLs
with truthy content, with their contents. -/
theorem fetch_all_comp_aux (f : String → FetchOutcome) (du : Option String) :
    ∀ (l : List String) (st : FetchAllState),
      (l.foldl (fetchStep f du) st).competitor_contents
        = st.competitor_contents ++ l.filterMap (fun v =>
            if contentTruthy f v && !(some v == du)
            then some (v, (FetchOutcome.content (f v)).getD "") else none)
  | [], st => by simp
  | v :: rest, st => by
    rw [List.foldl_cons, fetch_all_comp_aux f du rest (fetchStep f du st v),
      fetchStep_comp, List.filterMap_cons]
    rcases h : (contentTruthy f v && !(some v == du)) with _ | _ <;> simp [h]

/-- `domain_data` is untouched by URLs that are not the domain URL. -/
theorem fetch_all_dom_untouched (f : String → FetchOutcome) (du : Option String) :
    ∀ (l : List String) (st : FetchAllState),
      (∀ v ∈ l, (some v == du) = false) →
      (l.foldl (fetchStep f du) st).domain_data = st.domain_data
  | [], st, _ => rfl
  | v :: rest, st, h => by
    rw [List.foldl_cons,
      fetch_all_dom_untouched f du rest (fetchStep f du st v)
        (fun w hw => h w (List.mem_cons_of_mem v hw)),
      fetchStep_dom, if_neg (by simp [h v (List.mem_cons_self v rest)])]

/-- With no domain URL, `domain_data` stays `none`. -/
theorem fetch_all_dom_none (f : String → FetchOutcome) (urls : List String) :
    (fetch_all f urls none).domain_data = none := by
  unfold fetch_all
  rw [fetch_all_dom_untouched f none (dedupKeys urls) {} (fun v _ => rfl)]

/-- With a domain URL present once in the URL list, `domain_data` is exactly
the domain assignment of that URL's own fetch outcome. -/
theorem fetch_all_dom_mem (f : String → FetchOutcome) (u : String) :
    ∀ (l : List String) (st : FetchAllState), l.Nodup → u ∈ l →
      (l.foldl (fetchStep f (some u)) st).domain_data
        = (domTupleOf (f u)).or st.domain_data
  | [], _, _, hmem => absurd hmem (List.not_mem_nil u)
  | v :: rest, st, hnd, hmem => by
    rw [List.nodup_cons] at hnd
    rcases List.mem_cons.mp hmem with rfl | hmem2
    · rw [List.foldl_cons,
        fetch_all_dom_untouched f (some u) rest (fetchStep f (some u) st u)
          (fun w hw => by
            have hwne : w ≠ u := fun h => hnd.1 (h ▸ hw)
            simp [hwne]),
        fetchStep_dom, if_pos (by simp)]
    · have hvne : v ≠ u := fun h => hnd.1 (h ▸ hmem2)
      rw [List.foldl_cons,
        fetch_all_dom_mem f u rest (fetchStep f (some u) st v) hnd.2 hmem2,
        fetchStep_dom, if_neg (by simp [hvne])]

/-- Lookup past a matching head (generic values). -/
theorem lookupA_cons_of_pos {α : Type} (e : String × α) (l : List (String × α))
    (u : String) (h : (e.1 == u) = true) : lookupA (e :: l) u = some e.2 := by
  unfold lookupA
  have hf : List.find? (fun x : String × α => x.1 == u) (e :: l) = some e :=
    List.find?_cons_of_pos _ h
  rw [hf]
  rfl

/-- Lookup past a non-matching head (generic values). -/
theorem lookupA_cons_of_neg {α : Type} (e : String × α) (l : List (String × α))
    (u : String) (h : (e.1 == u) = false) : lookupA (e :: l) u = lookupA l u := by
  unfold lookupA
  have hf : List.find? (fun x : String × α => x.1 == u) (e :: l)
      = List.find? (fun x : String × α => x.1 == u) l :=
    List.find?_cons_of_neg _ (by simp [h])
  rw [hf]

/-- Looking up a URL in the characterized `url_data` gives that URL's own
entry. -/
theorem lookupA_map_self {α : Type} (g : String → α) :
    ∀ (l : List String) (u : String), u ∈ l →
      lookupA (l.map (fun v => (v, g v))) u = some (g u)
  | [], u, hmem => absurd hmem (List.not_mem_nil u)
  | v :: rest, u, hmem => by
    rcases hv : (v == u) with _ | _
    · have hur : u ∈ rest := by
        rcases List.mem_cons.mp hmem with rfl | h2
        · simp at hv
        · exact h2
      rw [List.map_cons, lookupA_cons_of_neg (v, g v) _ u hv]
      exact lookupA_map_self g rest u hur
    · have hvu : v = u := beq_iff_eq.mp hv
      subst hvu
      rw [List.map_cons, lookupA_cons_of_pos (v, g v) _ v (by simp)]

/-- `url_data` lookup after `fetch_all`: each URL's entry is a function of
its own fetch outcome only. -/
theorem fetch_all_lookup (f : String → FetchOutcome) (urls : List String)
    (du : Option String) (u : String) (hmem : u ∈ urls) :
    lookupA (fetch_all f urls du).url_data u = some (urlDataOf (f u)) := by
  unfold fetch_all
  rw [fetch_all_url_data_aux]
  rw [List.nil_append]
  exact lookupA_map_self (fun v => urlDataOf (f v)) (dedupKeys urls) u
    ((mem_dedupKeys urls u).mpr hmem)

/-- Lookup through `applyScores`: the entry keeps its key and is scored iff
its URL is in `url_order`. -/
theorem lookupA_applyScores (kwOk : Bool) (fieldSim : String → Option ℚ)
    (order : List String) :
    ∀ (ud : List (String × UrlData)) (u : String) (d : UrlData),
      lookupA ud u = some d →
      lookupA (applyScores kwOk fieldSim order ud) u
        = some (if order.contains u
            then { d with score := some (calculate_seo_weighted_score kwOk fieldSim (seoFieldsOf d)) }
            else d)
  | [], u, d, h => by
    unfold lookupA at h
    simp at h
  | e :: rest, u, d, h => by
    rcases he : (e.1 == u) with _ | _
    · rw [lookupA_cons_of_neg e rest u he] at h
      unfold applyScores
      rw [List.map_cons]
      have hkey : ((if order.contains e.1
          then (e.1, { e.2 with score := some (calculate_seo_weighted_score kwOk fieldSim (seoFieldsOf e.2)) })
          else e) : String × UrlData).1 = e.1 := by
        split <;> rfl
      rw [lookupA_cons_of_neg _ _ u (by rw [hkey]; exact he)]
      have hrec := lookupA_applyScores kwOk fieldSim order rest u d h
      unfold applyScores at hrec
      exact hrec
    · have heu : e.1 = u := beq_iff_eq.mp he
      rw [lookupA_cons_of_pos e rest u he] at h
      have hd : e.2 = d := Option.some.inj h
      unfold applyScores
      rw [List.map_cons]
      split
      · rename_i hc
        rw [lookupA_cons_of_pos _ _ u (by simpa using he), if_pos (heu ▸ hc), hd]
      · rename_i hc
        rw [lookupA_cons_of_pos e _ u he, if_neg (by rw [← heu]; exact hc), hd]

/-- Membership of a filtered list's `contains`. -/
theorem contains_filter (l : List String) (p : String → Bool) (u : String)
    (hmem : u ∈ l) : (l.filter p).contains u = p u := by
  rcases hp : p u with _ | _
  · rw [List.contains_eq_any_beq]
    rw [List.any_eq_false]
    intro x hx
    have hx2 := List.mem_filter.mp hx
    intro hbeq
    have hux : u = x := beq_iff_eq.mp (by simpa using hbeq)
    subst hux
    rw [hp] at hx2
    exact Bool.false_ne_true hx2.2
  · rw [List.contains_eq_any_beq, List.any_eq_true]
    exact ⟨u, List.mem_filter.mpr ⟨hmem, hp⟩, by simp⟩

/-- `_calculate_diff` only writes `ngram_differential`. -/
theorem calculate_diff_preserves (r : SemanticScoreResult) :
    (calculate_diff r).top_results = r.top_results
    ∧ (calculate_diff r).domain_ngrams = r.domain_ngrams
    ∧ (calculate_diff r).keyword_density = r.keyword_density
    ∧ (calculate_diff r).domain_position = r.domain_position
    ∧ (calculate_diff r).domain_url = r.domain_url
    ∧ (calculate_diff r).domain_score = r.domain_score
    ∧ (calculate_diff r).domain_content = r.domain_content
    ∧ (calculate_diff r).domain_h1 = r.domain_h1
    ∧ (calculate_diff r).domain_title = r.domain_title
    ∧ (calculate_diff r).faq_questions = r.faq_questions
    ∧ (calculate_diff r).average_score = r.average_score
    ∧ (calculate_diff r).average_competitor_score = r.average_competitor_score := by
  unfold calculate_diff
  split
  all_goals exact ⟨rfl, rfl, rfl, rfl, rfl, rfl, rfl, rfl, rfl, rfl, rfl, rfl⟩

/-- `_analyze_domain` does not touch `top_results` or the averages. -/
theorem analyze_domain_preserves (r : SemanticScoreResult) (o : Oracles) (kw du : String)
    (dd : DomainData) (items : List SearchItem) (url_data : List (String × UrlData))
    (top_n : Nat) (bt lt : ℚ) :
    (analyze_domain r o kw du dd items url_data top_n bt lt).top_results = r.top_results
    ∧ (analyze_domain r o kw du dd items url_data top_n bt lt).average_score
        = r.average_score
    ∧ (analyze_domain r o kw du dd items url_data top_n bt lt).average_competitor_score
        = r.average_competitor_score := by
  unfold analyze_domain
  split
  all_goals exact ⟨rfl, rfl, rfl⟩

/-- `_analyze_domain` on a domain page without content records the page
fields but computes no n-grams, density or questions. -/
theorem analyze_domain_no_content (r : SemanticScoreResult) (o : Oracles) (kw du : String)
    (dd : DomainData) (items : List SearchItem) (url_data : List (String × UrlData))
    (top_n : Nat) (bt lt : ℚ) (h : dd.1 = none) :
    (analyze_domain r o kw du dd items url_data top_n bt lt).domain_ngrams
        = r.domain_ngrams
    ∧ (analyze_domain r o kw du dd items url_data top_n bt lt).keyword_density
        = r.keyword_density := by
  unfold analyze_domain
  rw [h]
  rw [if_neg (by simp [optTruthy])]
  exact ⟨rfl, rfl⟩

/-- The empty-SERP branch of `_analyze_keyword`. -/
theorem analyze_keyword_of_empty_texts (o : Oracles) (kw domain : String)
    (items : List SearchItem) (num_urls top_n : Nat) (bt lt : ℚ)
    (hne : items.isEmpty = false)
    (hempty : (mainFetch o domain items).texts.isEmpty = true) :
    analyze_keyword o kw domain items num_urls top_n bt lt
      = { keyword := kw, error := some "Could not retrieve content for any URL.",
          top_results := List.insertionSort byPosition (earlyRows items) } := by
  unfold analyze_keyword
  rw [hne, hempty]
  rfl

/-- The main branch of `_analyze_keyword` is taken when some content was
retrieved. -/
theorem analyze_keyword_of_texts (o : Oracles) (kw domain : String)
    (items : List SearchItem) (num_urls top_n : Nat) (bt lt : ℚ)
    (hne : items.isEmpty = false)
    (hnonempty : (mainFetch o domain items).texts.isEmpty = false) :
    analyze_keyword o kw domain items num_urls top_n bt lt
      = analyze_keyword_main o kw domain items num_urls top_n bt lt := by
  unfold analyze_keyword
  rw [hne, hnonempty]
  rfl

/-- The page list produced by the main branch is the sorted population of
the scored `url_data`. -/
theorem analyze_keyword_main_top (o : Oracles) (kw domain : String)
    (items : List SearchItem) (num_urls top_n : Nat) (bt lt : ℚ) :
    (analyze_keyword_main o kw domain items num_urls top_n bt lt).top_results
      = (populate_results items (mainScored o domain items)
          (find_domain_url domain (organicItems items))).1 := by
  unfold analyze_keyword_main
  rw [(calculate_diff_preserves _).1]
  show (mainWithDomain o kw domain items num_urls top_n bt lt).top_results = _
  unfold mainWithDomain
  split
  · rw [(analyze_domain_preserves _ _ _ _ _ _ _ _ _ _).1]
    rfl
  · split
    all_goals rfl

/-- The domain data recorded by the fetch loop is the domain assignment of
the domain URL's own fetch outcome. -/
theorem mainFetch_domain_data (o : Oracles) (domain : String)
    (items : List SearchItem) (u : String)
    (hfind : find_domain_url domain (organicItems items) = some u)
    (hmem : u ∈ organicUrls items) :
    (mainFetch o domain items).domain_data = (domTupleOf (o.fetch u)).or none := by
  unfold mainFetch
  rw [hfind]
  unfold fetch_all
  exact fetch_all_dom_mem o.fetch u (dedupKeys (organicUrls items)) {}
    (dedupKeys_nodup _) ((mem_dedupKeys _ u).mpr hmem)

/-- In the main branch, a domain URL whose fetch produced no content leads
to no domain n-gram tables and no keyword density. -/
theorem analyze_keyword_main_domain_skip (o : Oracles) (kw domain : String)
    (items : List SearchItem) (num_urls top_n : Nat) (bt lt : ℚ) (u : String)
    (hfind : find_domain_url domain (organicItems items) = some u)
    (hmem : u ∈ organicUrls items)
    (hfail : FetchOutcome.content (o.fetch u) = none) :
    (analyze_keyword_main o kw domain items num_urls top_n bt lt).domain_ngrams = none
    ∧ (analyze_keyword_main o kw domain items num_urls top_n bt lt).keyword_density
        = none := by
  have hdom := mainFetch_domain_data o domain items u hfind hmem
  have hng : (analyze_keyword_main o kw domain items num_urls top_n bt lt).domain_ngrams
      = (mainWithDomain o kw domain items num_urls top_n bt lt).domain_ngrams := by
    unfold analyze_keyword_main
    rw [(calculate_diff_preserves _).2.1]
  have hkd : (analyze_keyword_main o kw domain items num_urls top_n bt lt).keyword_density
      = (mainWithDomain o kw domain items num_urls top_n bt lt).keyword_density := by
    unfold analyze_keyword_main
    rw [(calculate_diff_preserves _).2.2.1]
  rw [hng, hkd]
  unfold mainWithDomain
  rcases hf : o.fetch u with _ | _ | ⟨c, ch1, ct, cm, ch2, ch3, cmethod⟩
  · rw [hdom, hf]
    have hcond : (optTruthy (find_domain_url domain (organicItems items))
        && ((domTupleOf FetchOutcome.exn).or none).isSome) = false := by
      simp [domTupleOf, Option.or]
    rw [hcond]
    simp only [Bool.false_eq_true, if_false]
    split
    all_goals exact ⟨rfl, rfl⟩
  · rw [hdom, hf]
    have hcond : (optTruthy (find_domain_url domain (organicItems items))
        && ((domTupleOf FetchOutcome.malformed).or none).isSome) = false := by
      simp [domTupleOf, Option.or]
    rw [hcond]
    simp only [Bool.false_eq_true, if_false]
    split
    all_goals exact ⟨rfl, rfl⟩
  · have hc : c = none := by
      rw [hf] at hfail
      exact hfail
    subst hc
    rw [hdom, hf]
    split
    · have hskip := analyze_domain_no_content (mainBase o kw domain items) o kw
        ((find_domain_url domain (organicItems items)).getD "")
        (((domTupleOf (FetchOutcome.ok none ch1 ct cm ch2 ch3 cmethod)).or none).getD
          (none, none, none, none, [], []))
        items (mainScored o domain items) top_n bt lt (by simp [domTupleOf, Option.or])
      rw [hskip.1, hskip.2]
      exact ⟨rfl, rfl⟩
    · split
      all_goals exact ⟨rfl, rfl⟩

/-- The placeholder entry of a fetch outcome carries its content. -/
theorem urlDataOf_content (fo : FetchOutcome) :
    (urlDataOf fo).content = FetchOutcome.content fo := by
  cases fo
  all_goals rfl

/-- No fetch outcome carries a score before step 3. -/
theorem urlDataOf_score (fo : FetchOutcome) : (urlDataOf fo).score = none := by
  cases fo
  all_goals rfl

/-- An admissible item row belongs to `populateRows`. -/
theorem populateRows_mem (items : List SearchItem) (ud : List (String × UrlData))
    (item : SearchItem) (u : String) (pos : Nat) (d : UrlData)
    (hitem : item ∈ items) (hurl : item.url = some u) (hu : optTruthy (some u) = true)
    (hpos : item.rank_absolute = some pos) (hlook : lookupA ud u = some d) :
    (item, u, pos, d) ∈ populateRows items ud := by
  unfold populateRows
  refine List.mem_filterMap.mpr ⟨item, hitem, ?_⟩
  rw [hurl, hpos]
  simp only [Option.getD_some]
  rw [hu, hlook]
  rfl

/-- The `url_order` recorded by the fetch loop. -/
theorem mainFetch_url_order (o : Oracles) (domain : String) (items : List SearchItem) :
    (mainFetch o domain items).url_order
      = (dedupKeys (organicUrls items)).filter (contentTruthy o.fetch) := by
  unfold mainFetch fetch_all
  rw [fetch_all_url_order_aux, List.nil_append]

/-- Claim C7. A SERP URL whose fetch raises, returns a malformed value or
returns null content still yields a result row at its original SERP
position with null score and null content; the page list is position
sorted; the URL contributes no competitor content; if it is the located
domain URL, no domain n-grams or density are computed; and every URL's
fetched data is a function of its own fetch outcome alone, so one failure
cannot abort the other fetches. -/
theorem failed_fetch_placeholder (o : Oracles) (kw domain : String)
    (items : List SearchItem) (num_urls top_n : Nat) (bt lt : ℚ)
    (item : SearchItem) (u : String) (pos : Nat)
    (hitem : item ∈ items) (htype : item.type_ = some "organic")
    (hurl : item.url = some u) (hu : optTruthy (some u) = true)
    (hpos : item.rank_absolute = some pos)
    (hfail : FetchOutcome.content (o.fetch u) = none) :
    (∃ r ∈ (analyze_keyword o kw domain items num_urls top_n bt lt).top_results,
        r.url = u ∧ r.position = pos ∧ r.semantic_score = none ∧ r.body_content = none)
    ∧ (analyze_keyword o kw domain items num_urls top_n bt lt).top_results.Pairwise
        byPosition
    ∧ u ∉ (mainFetch o domain items).competitor_contents.map Prod.fst
    ∧ (find_domain_url domain (organicItems items) = some u →
        (analyze_keyword o kw domain items num_urls top_n bt lt).domain_ngrams = none
        ∧ (analyze_keyword o kw domain items num_urls top_n bt lt).keyword_density = none)
    ∧ (∀ v ∈ organicUrls items,
        lookupA (mainFetch o domain items).url_data v = some (urlDataOf (o.fetch v))) := by
  have hne : items.isEmpty = false := by
    cases items with
    | nil => exact absurd hitem (List.not_mem_nil item)
    | cons a as => rfl
  have horg : item ∈ organicItems items := by
    unfold organicItems
    refine List.mem_filter.mpr ⟨hitem, ?_⟩
    rw [htype, hurl]
    simp [hu]
  have humem : u ∈ organicUrls items := by
    unfold organicUrls
    exact List.mem_filterMap.mpr ⟨item, horg, hurl⟩
  have hctu : contentTruthy o.fetch u = false := by
    unfold contentTruthy
    rw [hfail]
    rfl
  have hlookupAll : ∀ v ∈ organicUrls items,
      lookupA (mainFetch o domain items).url_data v = some (urlDataOf (o.fetch v)) := by
    intro v hv
    unfold mainFetch
    exact fetch_all_lookup o.fetch (organicUrls items) _ v hv
  have hcomp : u ∉ (mainFetch o domain items).competitor_contents.map Prod.fst := by
    unfold mainFetch fetch_all
    rw [fetch_all_comp_aux, List.nil_append]
    intro hcon
    rcases List.mem_map.mp hcon with ⟨pair, hpair, hfst⟩
    rcases List.mem_filterMap.mp hpair with ⟨v, hv, hfn⟩
    split at hfn
    · rename_i hcnd
      have hpv := Option.some.inj hfn
      have hvu : v = u := by
        rw [← hfst, ← hpv]
      subst hvu
      have := ((Bool.and_eq_true _ _).mp hcnd).1
      rw [hctu] at this
      exact Bool.false_ne_true this
    · exact Option.noConfusion hfn
  have hdomskip : find_domain_url domain (organicItems items) = some u →
      (analyze_keyword o kw domain items num_urls top_n bt lt).domain_ngrams = none
      ∧ (analyze_keyword o kw domain items num_urls top_n bt lt).keyword_density
          = none := by
    intro hfind
    rcases hbr : (mainFetch o domain items).texts.isEmpty with _ | _
    · rw [analyze_keyword_of_texts o kw domain items num_urls top_n bt lt hne hbr]
      exact analyze_keyword_main_domain_skip o kw domain items num_urls top_n bt lt u
        hfind humem hfail
    · rw [analyze_keyword_of_empty_texts o kw domain items num_urls top_n bt lt hne hbr]
      exact ⟨rfl, rfl⟩
  refine ⟨?_, ?_, hcomp, hdomskip, hlookupAll⟩
  · rcases hbr : (mainFetch o domain items).texts.isEmpty with _ | _
    · rw [analyze_keyword_of_texts o kw domain items num_urls top_n bt lt hne hbr,
        analyze_keyword_main_top]
      have hcont : (mainFetch o domain items).url_order.contains u = false := by
        rw [mainFetch_url_order,
          contains_filter _ _ u ((mem_dedupKeys _ u).mpr humem), hctu]
      have hscored : lookupA (mainScored o domain items) u
          = some (urlDataOf (o.fetch u)) := by
        unfold mainScored
        rw [lookupA_applyScores o.kwOk o.fieldSim _ _ u _ (hlookupAll u humem),
          if_neg (by rw [hcont]; exact Bool.false_ne_true)]
      have hrow : (item, u, pos, urlDataOf (o.fetch u))
          ∈ populateRows items (mainScored o domain items) :=
        populateRows_mem items _ item u pos _ hitem hurl hu hpos hscored
      refine ⟨rowResult (item, u, pos, urlDataOf (o.fetch u)), ?_, rfl, rfl, ?_, ?_⟩
      · exact ((List.perm_insertionSort byPosition _).mem_iff).mpr
          (List.mem_map_of_mem rowResult hrow)
      · exact urlDataOf_score (o.fetch u)
      · rw [show (rowResult (item, u, pos, urlDataOf (o.fetch u))).body_content
            = (urlDataOf (o.fetch u)).content from rfl, urlDataOf_content]
        exact hfail
    · rw [analyze_keyword_of_empty_texts o kw domain items num_urls top_n bt lt hne hbr]
      have hear : ({ url := u, position := pos, title := item.title } : IndividualURLResult)
          ∈ earlyRows items := by
        unfold earlyRows
        refine List.mem_filterMap.mpr ⟨item, hitem, ?_⟩
        rw [hurl, hpos]
        simp [hu]
      exact ⟨{ url := u, position := pos, title := item.title },
        ((List.perm_insertionSort byPosition _).mem_iff).mpr hear, rfl, rfl, rfl, rfl⟩
  · rcases hbr : (mainFetch o domain items).texts.isEmpty with _ | _
    · rw [analyze_keyword_of_texts o kw domain items num_urls top_n bt lt hne hbr,
        analyze_keyword_main_top]
      exact List.sorted_insertionSort byPosition _
    · rw [analyze_keyword_of_empty_texts o kw domain items num_urls top_n bt lt hne hbr]
      exact List.sorted_insertionSort byPosition _

/-- Witness for claim C7 at a concrete run: the single organic URL's fetch
raises, yet the analysis still lists it at position 1 with null score and
null content. -/
theorem failed_fetch_placeholder_witness :
    ∃ r ∈ (analyze_keyword
        ⟨fun _ => FetchOutcome.exn, false, fun _ => none,
          ⟨false, fun _ => false, fun _ _ => none⟩, fun _ => {}, fun _ => []⟩
        "kw" "" [⟨some "organic", some "https://x.com", some 1, some "X"⟩]
        10 50 ((1 : ℚ) / 2) ((17 : ℚ) / 20)).top_results,
      r.url = "https://x.com" ∧ r.position = 1 ∧ r.semantic_score = none
        ∧ r.body_content = none :=
  (failed_fetch_placeholder
    ⟨fun _ => FetchOutcome.exn, false, fun _ => none,
      ⟨false, fun _ => false, fun _ _ => none⟩, fun _ => {}, fun _ => []⟩
    "kw" "" [⟨some "organic", some "https://x.com", some 1, some "X"⟩]
    10 50 ((1 : ℚ) / 2) ((17 : ℚ) / 20)
    ⟨some "organic", some "https://x.com", some 1, some "X"⟩ "https://x.com" 1
    (List.mem_cons_self _ _) rfl rfl (by decide) rfl rfl).1

/-- No differential is computed without domain n-gram tables. -/
theorem calculate_diff_none (r : SemanticScoreResult) (h : r.domain_ngrams = none) :
    (calculate_diff r).ngram_differential = none := by
  unfold calculate_diff
  rw [h]

/-- Claim C8 (amended). When no organic URL contains the tracked domain,
the located domain URL is `none`; every domain-related field of the analysis
stays empty/null except `domain_url`, which (for a nonempty tracked domain,
in the main branch) is set to a "not found" message rather than left null;
competitor aggregation covers every fetched page; per-page scoring still
completes from each URL's own fetch outcome. When a match exists, the first
matching organic item in API result order is chosen. -/
theorem domain_locate_spec (o : Oracles) (kw domain : String)
    (items : List SearchItem) (num_urls top_n : Nat) (bt lt : ℚ)
    (hne : items.isEmpty = false) :
    ((∀ i ∈ organicItems items,
        strContains (strLower (i.url.getD "")) (strLower domain) = false) →
      find_domain_url domain (organicItems items) = none
      ∧ ((analyze_keyword o kw domain items num_urls top_n bt lt).domain_position = none
        ∧ (analyze_keyword o kw domain items num_urls top_n bt lt).domain_score = none
        ∧ (analyze_keyword o kw domain items num_urls top_n bt lt).domain_content = none
        ∧ (analyze_keyword o kw domain items num_urls top_n bt lt).domain_h1 = none
        ∧ (analyze_keyword o kw domain items num_urls top_n bt lt).domain_title = none
        ∧ (analyze_keyword o kw domain items num_urls top_n bt lt).domain_ngrams = none
        ∧ (analyze_keyword o kw domain items num_urls top_n bt lt).keyword_density = none
        ∧ (analyze_keyword o kw domain items num_urls top_n bt lt).faq_questions = []
        ∧ (analyze_keyword o kw domain items num_urls top_n bt lt).ngram_differential
            = none)
      ∧ (domain.data.isEmpty = false → (mainFetch o domain items).texts.isEmpty = false →
          (analyze_keyword o kw domain items num_urls top_n bt lt).domain_url
            = some ("Domain '" ++ domain ++ "' not found in Top " ++ toString num_urls))
      ∧ (mainFetch o domain items).competitor_contents
          = (dedupKeys (organicUrls items)).filterMap (fun v =>
              if contentTruthy o.fetch v
              then some (v, (FetchOutcome.content (o.fetch v)).getD "") else none)
      ∧ (∀ v ∈ organicUrls items,
          lookupA (mainScored o domain items) v
            = some (if contentTruthy o.fetch v
                then { urlDataOf (o.fetch v) with
                  score := some (calculate_seo_weighted_score o.kwOk o.fieldSim
                    (seoFieldsOf (urlDataOf (o.fetch v)))) }
                else urlDataOf (o.fetch v))))
    ∧ (∀ u, find_domain_url domain (organicItems items) = some u →
        ∃ (i : SearchItem) (pre post : List SearchItem),
          organicItems items = pre ++ i :: post
          ∧ i.url.getD "" = u
          ∧ strContains (strLower u) (strLower domain) = true
          ∧ ∀ j ∈ pre, strContains (strLower (j.url.getD "")) (strLower domain) = false) := by
  constructor
  · intro hno
    have hfind : find_domain_url domain (organicItems items) = none := by
      unfold find_domain_url
      split
      · rfl
      · rw [List.find?_eq_none.mpr (fun i hi => by simp [hno i hi])]
        rfl
    have hdomdata : (mainFetch o domain items).domain_data = none := by
      unfold mainFetch
      rw [hfind]
      exact fetch_all_dom_none o.fetch (organicUrls items)
    have hcond : (optTruthy (find_domain_url domain (organicItems items))
        && (mainFetch o domain items).domain_data.isSome) = false := by
      rw [hfind]
      rfl
    have hWD : mainWithDomain o kw domain items num_urls top_n bt lt
        = (if !domain.data.isEmpty then
            { mainBase o kw domain items with
                domain_url := some ("Domain '" ++ domain ++ "' not found in Top "
                  ++ toString num_urls) }
          else mainBase o kw domain items) := by
      unfold mainWithDomain
      rw [hcond]
      rfl
    refine ⟨hfind, ?_, ?_, ?_, ?_⟩
    · rcases hbr : (mainFetch o domain items).texts.isEmpty with _ | _
      · rw [analyze_keyword_of_texts o kw domain items num_urls top_n bt lt hne hbr]
        have hdng : (analyze_keyword_main o kw domain items num_urls top_n bt lt).domain_ngrams
            = none := by
          unfold analyze_keyword_main
          rw [(calculate_diff_preserves _).2.1]
          show (mainWithDomain o kw domain items num_urls top_n bt lt).domain_ngrams = none
          rw [hWD]
          split
          all_goals rfl
        refine ⟨?_, ?_, ?_, ?_, ?_, hdng, ?_, ?_, ?_⟩
        all_goals unfold analyze_keyword_main
        · rw [(calculate_diff_preserves _).2.2.2.1]
          show (mainWithDomain o kw domain items num_urls top_n bt lt).domain_position = none
          rw [hWD]
          split
          all_goals rfl
        · rw [(calculate_diff_preserves _).2.2.2.2.2.1]
          show (mainWithDomain o kw domain items num_urls top_n bt lt).domain_score = none
          rw [hWD]
          split
          all_goals rfl
        · rw [(calculate_diff_preserves _).2.2.2.2.2.2.1]
          show (mainWithDomain o kw domain items num_urls top_n bt lt).domain_content = none
          rw [hWD]
          split
          all_goals rfl
        · rw [(calculate_diff_preserves _).2.2.2.2.2.2.2.1]
          show (mainWithDomain o kw domain items num_urls top_n bt lt).domain_h1 = none
          rw [hWD]
          split
          all_goals rfl
        · rw [(calculate_diff_preserves _).2.2.2.2.2.2.2.2.1]
          show (mainWithDomain o kw domain items num_urls top_n bt lt).domain_title = none
          rw [hWD]
          split
          all_goals rfl
        · rw [(calculate_diff_preserves _).2.2.1]
          show (mainWithDomain o kw domain items num_urls top_n bt lt).keyword_density = none
          rw [hWD]
          split
          all_goals rfl
        · rw [(calculate_diff_preserves _).2.2.2.2.2.2.2.2.2.1]
          show (mainWithDomain o kw domain items num_urls top_n bt lt).faq_questions = []
          rw [hWD]
          split
          all_goals rfl
        · refine calculate_diff_none _ ?_
          show (mainWithDomain o kw domain items num_urls top_n bt lt).domain_ngrams = none
          rw [hWD]
          split
          all_goals rfl
      · rw [analyze_keyword_of_empty_texts o kw domain items num_urls top_n bt lt hne hbr]
        exact ⟨rfl, rfl, rfl, rfl, rfl, rfl, rfl, rfl, rfl⟩
    · intro hdom hbr
      rw [analyze_keyword_of_texts o kw domain items num_urls top_n bt lt hne hbr]
      unfold analyze_keyword_main
      rw [(calculate_diff_preserves _).2.2.2.2.1]
      show (mainWithDomain o kw domain items num_urls top_n bt lt).domain_url = _
      rw [hWD, if_pos (by rw [hdom]; rfl)]
    · unfold mainFetch fetch_all
      rw [hfind, fetch_all_comp_aux, List.nil_append]
      congr 1
      funext v
      simp
    · intro v hv
      have hlook : lookupA (mainFetch o domain items).url_data v
          = some (urlDataOf (o.fetch v)) := by
        unfold mainFetch
        exact fetch_all_lookup o.fetch (organicUrls items) _ v hv
      have hcont : (mainFetch o domain items).url_order.contains v
          = contentTruthy o.fetch v := by
        rw [mainFetch_url_order, contains_filter _ _ v ((mem_dedupKeys _ v).mpr hv)]
      unfold mainScored
      rw [lookupA_applyScores o.kwOk o.fieldSim _ _ v _ hlook]
      rcases hct : contentTruthy o.fetch v with _ | _
      · rw [hct] at hcont
        rw [if_neg (by rw [hcont]; exact Bool.false_ne_true), if_neg Bool.false_ne_true]
      · rw [hct] at hcont
        rw [if_pos hcont, if_pos rfl]
  · intro u hfind
    unfold find_domain_url at hfind
    split at hfind
    · exact Option.noConfusion hfind
    · rcases hfq : (organicItems items).find? (fun item =>
          strContains (strLower (item.url.getD "")) (strLower domain)) with _ | i
      · rw [hfq] at hfind
        exact Option.noConfusion hfind
      · rw [hfq] at hfind
        have hiu : i.url.getD "" = u := Option.some.inj hfind
        obtain ⟨hp, pre, post, hsplit, hpre⟩ := List.find?_eq_some.mp hfq
        refine ⟨i, pre, post, hsplit, hiu, by rw [← hiu]; exact hp, ?_⟩
        intro j hj
        have := hpre j hj
        simpa using this

unseal Rat.mul Rat.inv Rat.add Rat.sub in
/-- Counterexample to claim C8 as stated: in a run where the tracked domain
matches no SERP URL, the `domain_url` field does not remain empty/null — the
code stores a "not found" message string in it. -/
theorem domain_not_found_url_not_null :
    ((analyze_keyword
        ⟨fun _ => FetchOutcome.ok (some "hello world") none none none [] [] "direct",
          false, fun _ => none, ⟨false, fun _ => false, fun _ _ => none⟩,
          fun _ => {}, fun _ => []⟩
        "kw" "nosuchdomain" [⟨some "organic", some "https://example.com", some 1, none⟩]
        10 50 ((1 : ℚ) / 2) ((17 : ℚ) / 20)).domain_url).isSome = true := by
  decide

/-- Witness for the amended claim C8 at a concrete run: with no matching
URL, no domain result is located. -/
theorem domain_locate_spec_witness :
    find_domain_url "nosuchdomain"
      (organicItems [⟨some "organic", some "https://example.com", some 1, none⟩]) = none :=
  ((domain_locate_spec
      ⟨fun _ => FetchOutcome.ok (some "hello world") none none none [] [] "direct",
        false, fun _ => none, ⟨false, fun _ => false, fun _ _ => none⟩,
        fun _ => {}, fun _ => []⟩
      "kw" "nosuchdomain" [⟨some "organic", some "https://example.com", some 1, none⟩]
      10 50 ((1 : ℚ) / 2) ((17 : ℚ) / 20) rfl).1 (by decide)).1

end OrganicPerf
